import Mathlib

/-!
Verification of the clinical agentic control plane (cacp) against its
specification.  The Python sources are shallowly embedded: dictionaries
become association lists, JSON values become an inductive type, wall-clock
reads become explicit parameters, Redis becomes an explicit state record,
and remote collaborators (HMAC primitive, OPA oracle, GitHub API) become
function parameters.
-/

set_option maxRecDepth 2000

namespace Cacp

/-! ## JSON values (model of the Python dict/list/scalar universe)

Python dicts are modelled as insertion-ordered association lists with
distinct keys; floats are outside the model.  Two Python values are equal
(`==`) iff their deep-sorted forms coincide, which is how `sortDeep` is
used below. -/

inductive Json where
  | null : Json
  | bool : Bool → Json
  | int : Int → Json
  | str : String → Json
  | arr : List Json → Json
  | obj : List (String × Json) → Json

mutual

def decEqJson : (a b : Json) → Decidable (a = b)
  | .null, .null => .isTrue rfl
  | .bool a, .bool b =>
    if h : a = b then .isTrue (h ▸ rfl)
    else .isFalse (fun hh => h (Json.bool.inj hh))
  | .int a, .int b =>
    if h : a = b then .isTrue (h ▸ rfl)
    else .isFalse (fun hh => h (Json.int.inj hh))
  | .str a, .str b =>
    if h : a = b then .isTrue (h ▸ rfl)
    else .isFalse (fun hh => h (Json.str.inj hh))
  | .arr xs, .arr ys =>
    match decEqJsonList xs ys with
    | .isTrue h => .isTrue (h ▸ rfl)
    | .isFalse h => .isFalse (fun hh => h (Json.arr.inj hh))
  | .obj a, .obj b =>
    match decEqJsonPairs a b with
    | .isTrue h => .isTrue (h ▸ rfl)
    | .isFalse h => .isFalse (fun hh => h (Json.obj.inj hh))
  | .null, .bool _ => .isFalse nofun
  | .null, .int _ => .isFalse nofun
  | .null, .str _ => .isFalse nofun
  | .null, .arr _ => .isFalse nofun
  | .null, .obj _ => .isFalse nofun
  | .bool _, .null => .isFalse nofun
  | .bool _, .int _ => .isFalse nofun
  | .bool _, .str _ => .isFalse nofun
  | .bool _, .arr _ => .isFalse nofun
  | .bool _, .obj _ => .isFalse nofun
  | .int _, .null => .isFalse nofun
  | .int _, .bool _ => .isFalse nofun
  | .int _, .str _ => .isFalse nofun
  | .int _, .arr _ => .isFalse nofun
  | .int _, .obj _ => .isFalse nofun
  | .str _, .null => .isFalse nofun
  | .str _, .bool _ => .isFalse nofun
  | .str _, .int _ => .isFalse nofun
  | .str _, .arr _ => .isFalse nofun
  | .str _, .obj _ => .isFalse nofun
  | .arr _, .null => .isFalse nofun
  | .arr _, .bool _ => .isFalse nofun
  | .arr _, .int _ => .isFalse nofun
  | .arr _, .str _ => .isFalse nofun
  | .arr _, .obj _ => .isFalse nofun
  | .obj _, .null => .isFalse nofun
  | .obj _, .bool _ => .isFalse nofun
  | .obj _, .int _ => .isFalse nofun
  | .obj _, .str _ => .isFalse nofun
  | .obj _, .arr _ => .isFalse nofun

def decEqJsonList : (a b : List Json) → Decidable (a = b)
  | [], [] => .isTrue rfl
  | [], _ :: _ => .isFalse nofun
  | _ :: _, [] => .isFalse nofun
  | x :: xs, y :: ys =>
    match decEqJson x y with
    | .isFalse h => .isFalse (fun hh => by injection hh with h1 h2; exact h h1)
    | .isTrue h1 =>
      match decEqJsonList xs ys with
      | .isTrue h2 => .isTrue (by rw [h1, h2])
      | .isFalse h => .isFalse (fun hh => by injection hh with h1 h2; exact h h2)

def decEqJsonPairs : (a b : List (String × Json)) → Decidable (a = b)
  | [], [] => .isTrue rfl
  | [], _ :: _ => .isFalse nofun
  | _ :: _, [] => .isFalse nofun
  | (k, v) :: xs, (k', v') :: ys =>
    if hk : k = k' then
      match decEqJson v v' with
      | .isFalse h =>
        .isFalse (fun hh => by
          injection hh with h1 h2
          exact h (congrArg Prod.snd h1))
      | .isTrue hv =>
        match decEqJsonPairs xs ys with
        | .isTrue h2 => .isTrue (by rw [hk, hv, h2])
        | .isFalse h => .isFalse (fun hh => by injection hh with h1 h2; exact h h2)
    else
      .isFalse (fun hh => by
        injection hh with h1 h2
        exact hk (congrArg Prod.fst h1))

end

instance : DecidableEq Json := decEqJson

/-- Decimal digit to character (only digits below ten occur). -/
def decDig : Nat → Char
  | 0 => '0'
  | 1 => '1'
  | 2 => '2'
  | 3 => '3'
  | 4 => '4'
  | 5 => '5'
  | 6 => '6'
  | 7 => '7'
  | 8 => '8'
  | 9 => '9'
  | _ => '*'

/-- Hexadecimal digit to lowercase character (only values below sixteen occur). -/
def hexDig : Nat → Char
  | 0 => '0'
  | 1 => '1'
  | 2 => '2'
  | 3 => '3'
  | 4 => '4'
  | 5 => '5'
  | 6 => '6'
  | 7 => '7'
  | 8 => '8'
  | 9 => '9'
  | 10 => 'a'
  | 11 => 'b'
  | 12 => 'c'
  | 13 => 'd'
  | 14 => 'e'
  | 15 => 'f'
  | _ => '*'

/-- Little-endian decimal digits of `n`; the first argument is fuel
(taking `fuel = n` is always enough). -/
def natDigitsRev : Nat → Nat → List Nat
  | 0, _ => []
  | _ + 1, 0 => []
  | fuel + 1, n => n % 10 :: natDigitsRev fuel (n / 10)

/-- Decimal rendering of a natural number, as Python would print it. -/
def renderNat (n : Nat) : List Char :=
  if n = 0 then ['0'] else ((natDigitsRev n n).map decDig).reverse

/-- Decimal rendering of an integer, as Python would print it. -/
def renderInt (n : Int) : List Char :=
  if n < 0 then '-' :: renderNat (-n).toNat else renderNat n.toNat

/-- Four-digit lowercase hex rendering, as in a JSON `\uXXXX` escape. -/
def hex4 (n : Nat) : List Char :=
  [hexDig (n / 4096 % 16), hexDig (n / 256 % 16), hexDig (n / 16 % 16), hexDig (n % 16)]

/-- Escape of one character following `json.dumps` with `ensure_ascii=True`:
printable ASCII is kept, the two JSON specials and the five short escapes are
backslash-escaped, everything else becomes `\uXXXX` (a surrogate pair for
code points above `0xFFFF`). -/
def escChar (c : Char) : List Char :=
  if c = '"' then ['\\', '"']
  else if c = '\\' then ['\\', '\\']
  else if c = '\n' then ['\\', 'n']
  else if c = '\t' then ['\\', 't']
  else if c = '\r' then ['\\', 'r']
  else if c.toNat = 8 then ['\\', 'b']
  else if c.toNat = 12 then ['\\', 'f']
  else if c.toNat < 0x20 ∨ (0x7e < c.toNat ∧ c.toNat < 0x10000) then
    '\\' :: 'u' :: hex4 c.toNat
  else if 0x7e < c.toNat then
    ('\\' :: 'u' :: hex4 (0xd800 + (c.toNat - 0x10000) / 0x400)) ++
      ('\\' :: 'u' :: hex4 (0xdc00 + (c.toNat - 0x10000) % 0x400))
  else [c]

/-- Escape of a character list. -/
def escList : List Char → List Char
  | [] => []
  | c :: t => escChar c ++ escList t

/-- JSON string literal rendering: quoted escaped content. -/
def renderStr (s : String) : List Char :=
  '"' :: (escList s.data ++ ['"'])

/-- Insert a pair into a key-sorted pair list. -/
def insortKey (p : String × Json) : List (String × Json) → List (String × Json)
  | [] => [p]
  | q :: t => if p.1 ≤ q.1 then p :: q :: t else q :: insortKey p t

/-- Insertion sort of an association list by key, modelling `sort_keys=True`. -/
def sortByKey : List (String × Json) → List (String × Json)
  | [] => []
  | p :: t => insortKey p (sortByKey t)

mutual

/-- Recursively sort every object level by key (the order `json.dumps`
with `sort_keys=True` emits members in). -/
def sortDeep : Json → Json
  | .null => .null
  | .bool b => .bool b
  | .int n => .int n
  | .str s => .str s
  | .arr xs => .arr (sortDeepList xs)
  | .obj kvs => .obj (sortByKey (sortDeepPairs kvs))

def sortDeepList : List Json → List Json
  | [] => []
  | x :: t => sortDeep x :: sortDeepList t

def sortDeepPairs : List (String × Json) → List (String × Json)
  | [] => []
  | (k, v) :: t => (k, sortDeep v) :: sortDeepPairs t

end

mutual

/-- Compact JSON rendering with separators `","` and `":"` and no added
whitespace, emitting members in stored order (ordering is handled by
`sortDeep`). -/
def render : Json → List Char
  | .null => ['n', 'u', 'l', 'l']
  | .bool .true => ['t', 'r', 'u', 'e']
  | .bool .false => ['f', 'a', 'l', 's', 'e']
  | .int n => renderInt n
  | .str s => renderStr s
  | .arr xs => '[' :: (renderElems xs ++ [']'])
  | .obj kvs => '{' :: (renderMembers kvs ++ ['}'])

def renderElems : List Json → List Char
  | [] => []
  | x :: t => render x ++ renderElemsTl t

def renderElemsTl : List Json → List Char
  | [] => []
  | x :: t => ',' :: (render x ++ renderElemsTl t)

def renderMembers : List (String × Json) → List Char
  | [] => []
  | (k, v) :: t => renderStr k ++ ':' :: (render v ++ renderMembersTl t)

def renderMembersTl : List (String × Json) → List Char
  | [] => []
  | (k, v) :: t => ',' :: (renderStr k ++ ':' :: (render v ++ renderMembersTl t))

end

/-- Payloads are Python dicts: association lists from strings to JSON values. -/
abbrev Payload := List (String × Json)

/-- Filter used by the dict comprehension in `canonicalise`: keep the pairs
whose key is not excluded. -/
def keepKey (exclude_keys : List String) (kv : String × Json) : Bool :=
  ! exclude_keys.contains kv.1

/-- Canonical JSON per `cacp.signing.canonical.canonicalise`: remove the
excluded top-level keys, then dump with sorted keys, separators `(",", ":")`
and no whitespace. -/
def canonicalise (payload : Payload) (exclude_keys : List String) : String :=
  String.mk (render (sortDeep (Json.obj (payload.filter (keepKey exclude_keys)))))

/-- Keys excluded from the HMAC pre-image (`_EXCLUDE` in `cacp.signing.hmac`). -/
def hmacExclude : List String := ["hmac_signature"]

/-- Model of `cacp.signing.hmac.sign_payload`; the HMAC-SHA256 primitive from
`hashlib`/`hmac` is an external collaborator and enters as the function
parameter `mac` (secret first, message second). -/
def sign_payload (mac : String → String → String) (payload : Payload)
    (secret : String) : String :=
  mac secret (canonicalise payload hmacExclude)

/-- Model of `hmac.compare_digest` on strings (timing is outside the model). -/
def compareDigest (a b : String) : Bool := a == b

/-- First binding of `k` in a payload (`dict` lookup). -/
def lookupKey (payload : Payload) (k : String) : Option Json :=
  match payload with
  | [] => none
  | (k', v) :: t => if k' = k then some v else lookupKey t k

/-- Model of `payload[k] = v` on an insertion-ordered dict: replace the
binding in place, or append it at the end when absent. -/
def setKey (payload : Payload) (k : String) (v : Json) : Payload :=
  match payload with
  | [] => [(k, v)]
  | (k', v') :: t => if k' = k then (k, v) :: t else (k', v') :: setKey t k v

/-- Model of `cacp.signing.hmac.verify_signature`: read the stored
`hmac_signature` (missing or falsy means failure), recompute over the
payload minus the signature field, and compare digests. -/
def verify_signature (mac : String → String → String) (payload : Payload)
    (secret : String) : Bool :=
  match lookupKey payload "hmac_signature" with
  | some (.str expected) =>
    if expected = "" then false
    else compareDigest (sign_payload mac payload secret) expected
  | _ => false

/-- Keys of a payload are pairwise distinct (every Python dict satisfies this). -/
def nodupKeys (payload : Payload) : Prop :=
  (payload.map Prod.fst).Nodup

instance (payload : Payload) : Decidable (nodupKeys payload) := by
  unfold nodupKeys
  infer_instance

/-! ## Injectivity of the canonical renderer

The key fact behind signature verification: two payloads with the same
canonical serialization are equal (up to `sortDeep`, the model of Python
dict equality).  The proofs follow the usual unambiguity scheme: a rendered
value followed by a non-digit tail determines both the value and the tail. -/

/-- Tails that keep a rendered integer unambiguous: empty, or starting with
a non-digit.  Every tail arising inside the renderer (`,`, `]`, `}`, `:`)
has this shape. -/
def goodTail : List Char → Prop
  | [] => True
  | c :: _ => c.isDigit = false

theorem goodTail_nil : goodTail [] := trivial

theorem goodTail_cons {c : Char} {t : List Char} (h : c.isDigit = false) :
    goodTail (c :: t) := h

theorem decDig_isDigit {d : Nat} (h : d < 10) : (decDig d).isDigit = true := by
  interval_cases d <;> decide

theorem decDig_inj {a b : Nat} (ha : a < 10) (hb : b < 10)
    (h : decDig a = decDig b) : a = b := by
  interval_cases a <;> interval_cases b <;> first | rfl | exact absurd h (by decide)

theorem natDigitsRev_lt : ∀ fuel n, ∀ d ∈ natDigitsRev fuel n, d < 10 := by
  intro fuel
  induction fuel with
  | zero => intro n d hd; simp [natDigitsRev] at hd
  | succ f ih =>
    intro n d hd
    cases n with
    | zero => simp [natDigitsRev] at hd
    | succ m =>
      simp only [natDigitsRev, List.mem_cons] at hd
      rcases hd with h | h
      · subst h; exact Nat.mod_lt _ (by omega)
      · exact ih _ _ h

/-- Value of a little-endian digit list. -/
def ofDigs : List Nat → Nat
  | [] => 0
  | d :: t => d + 10 * ofDigs t

theorem ofDigs_natDigitsRev : ∀ fuel n, n ≤ fuel → ofDigs (natDigitsRev fuel n) = n := by
  intro fuel
  induction fuel with
  | zero => intro n h; interval_cases n; simp [natDigitsRev, ofDigs]
  | succ f ih =>
    intro n h
    cases n with
    | zero => simp [natDigitsRev, ofDigs]
    | succ m =>
      simp only [natDigitsRev, ofDigs]
      have hdiv : (m + 1) / 10 < m + 1 := Nat.div_lt_self (by omega) (by omega)
      rw [ih ((m + 1) / 10) (by omega)]
      omega

theorem mapDecDig_inj : ∀ l1 l2 : List Nat, (∀ d ∈ l1, d < 10) → (∀ d ∈ l2, d < 10) →
    l1.map decDig = l2.map decDig → l1 = l2 := by
  intro l1
  induction l1 with
  | nil => intro l2 _ _ h; cases l2 <;> simp_all
  | cons d t ih =>
    intro l2 h1 h2 h
    cases l2 with
    | nil => simp at h
    | cons d' t' =>
      simp only [List.map_cons, List.cons.injEq] at h
      have hd : d = d' := decDig_inj (h1 d (by simp)) (h2 d' (by simp)) h.1
      have ht : t = t' := ih t' (fun x hx => h1 x (by simp [hx]))
        (fun x hx => h2 x (by simp [hx])) h.2
      rw [hd, ht]

theorem renderNat_inj {a b : Nat} (h : renderNat a = renderNat b) : a = b := by
  unfold renderNat at h
  by_cases ha : a = 0 <;> by_cases hb : b = 0 <;> simp [ha, hb] at h ⊢
  · -- a = 0, b ≠ 0
    have := congrArg List.reverse h
    simp at this
    have hb10 := natDigitsRev_lt b b
    have : natDigitsRev b b = [0] := by
      have hm : (natDigitsRev b b).map decDig = [0].map decDig := by
        simpa [decDig] using this.symm
      exact mapDecDig_inj _ _ hb10 (by simp) hm
    have := congrArg ofDigs this
    rw [ofDigs_natDigitsRev b b le_rfl] at this
    simp [ofDigs] at this
    exact absurd this hb
  · -- a ≠ 0, b = 0
    have := congrArg List.reverse h
    simp at this
    have ha10 := natDigitsRev_lt a a
    have : natDigitsRev a a = [0] := by
      have hm : (natDigitsRev a a).map decDig = [0].map decDig := by
        simpa [decDig] using this
      exact mapDecDig_inj _ _ ha10 (by simp) hm
    have := congrArg ofDigs this
    rw [ofDigs_natDigitsRev a a le_rfl] at this
    simp [ofDigs] at this
    exact absurd this ha
  · have hrev := congrArg List.reverse h
    simp at hrev
    have hd := mapDecDig_inj _ _ (natDigitsRev_lt a a) (natDigitsRev_lt b b) hrev
    have := congrArg ofDigs hd
    rw [ofDigs_natDigitsRev a a le_rfl, ofDigs_natDigitsRev b b le_rfl] at this
    exact this

theorem renderNat_all_digits (n : Nat) : ∀ c ∈ renderNat n, c.isDigit = true := by
  unfold renderNat
  by_cases h : n = 0
  · simp [h]
  · simp only [h, if_false]
    intro c hc
    simp only [List.mem_reverse, List.mem_map] at hc
    obtain ⟨d, hd, hcd⟩ := hc
    rw [← hcd]
    exact decDig_isDigit (natDigitsRev_lt n n d hd)

theorem renderNat_ne_nil (n : Nat) : renderNat n ≠ [] := by
  unfold renderNat
  by_cases h : n = 0 <;> simp [h]
  intro hr
  have := congrArg ofDigs (congrArg List.reverse hr)
  have hm : (natDigitsRev n n).map decDig = [] := by simpa using congrArg List.reverse hr
  have : natDigitsRev n n = [] := by
    cases hx : natDigitsRev n n <;> simp_all
  have := congrArg ofDigs this
  rw [ofDigs_natDigitsRev n n le_rfl] at this
  simp [ofDigs] at this
  exact h this

/-- Maximal digit runs are unambiguous: equal concatenations with non-digit
tails split identically. -/
theorem digitRun : ∀ A B r s : List Char, (∀ c ∈ A, c.isDigit = true) →
    (∀ c ∈ B, c.isDigit = true) → goodTail r → goodTail s →
    A ++ r = B ++ s → A = B ∧ r = s := by
  intro A
  induction A with
  | nil =>
    intro B r s _ hB hr hs h
    cases B with
    | nil => simpa using h
    | cons c t =>
      simp only [List.nil_append, List.cons_append] at h
      rw [h] at hr
      have : c.isDigit = true := hB c (by simp)
      simp [goodTail] at hr
      rw [this] at hr
      cases hr
  | cons c A' ih =>
    intro B r s hA hB hr hs h
    cases B with
    | nil =>
      simp only [List.cons_append, List.nil_append] at h
      rw [← h] at hs
      have : c.isDigit = true := hA c (by simp)
      simp [goodTail] at hs
      rw [this] at hs
      cases hs
    | cons d B' =>
      simp only [List.cons_append, List.cons.injEq] at h
      obtain ⟨hcd, hrest⟩ := h
      obtain ⟨hAB, hrs⟩ := ih B' r s (fun x hx => hA x (by simp [hx]))
        (fun x hx => hB x (by simp [hx])) hr hs hrest
      exact ⟨by rw [hcd, hAB], hrs⟩

theorem renderInt_unamb {a b : Int} {r s : List Char} (hr : goodTail r)
    (hs : goodTail s) (h : renderInt a ++ r = renderInt b ++ s) :
    a = b ∧ r = s := by
  unfold renderInt at h
  by_cases ha : a < 0 <;> by_cases hb : b < 0 <;> simp [ha, hb] at h
  · -- both negative
    obtain ⟨hN, hrs⟩ := digitRun _ _ r s (renderNat_all_digits _)
      (renderNat_all_digits _) hr hs h
    have := renderNat_inj hN
    constructor
    · omega
    · exact hrs
  · -- a < 0, b ≥ 0: the right side starts with a digit, the left with '-'
    exfalso
    cases hx : renderNat b.toNat with
    | nil => exact renderNat_ne_nil _ hx
    | cons c t =>
      rw [hx] at h
      simp only [List.cons_append, List.cons.injEq] at h
      have : c.isDigit = true := renderNat_all_digits b.toNat c (by rw [hx]; simp)
      rw [← h.1] at this
      simp [Char.isDigit] at this
  · exfalso
    cases hx : renderNat a.toNat with
    | nil => exact renderNat_ne_nil _ hx
    | cons c t =>
      rw [hx] at h
      simp only [List.cons_append, List.cons.injEq] at h
      have : c.isDigit = true := renderNat_all_digits a.toNat c (by rw [hx]; simp)
      rw [h.1] at this
      simp [Char.isDigit] at this
  · obtain ⟨hN, hrs⟩ := digitRun _ _ r s (renderNat_all_digits _)
      (renderNat_all_digits _) hr hs h
    have := renderNat_inj hN
    constructor
    · omega
    · exact hrs

theorem charToNat_inj {a b : Char} (h : a.toNat = b.toNat) : a = b :=
  Char.eq_of_val_eq (UInt32.ext h)

theorem char_valid_nat (c : Char) :
    c.toNat < 0xd800 ∨ (0xdfff < c.toNat ∧ c.toNat < 0x110000) := c.valid

theorem hexDig_inj {a b : Nat} (ha : a < 16) (hb : b < 16)
    (h : hexDig a = hexDig b) : a = b := by
  interval_cases a <;> interval_cases b <;> first | rfl | exact absurd h (by decide)

theorem hex4_length (n : Nat) : (hex4 n).length = 4 := rfl

theorem hex4_inj {a b : Nat} (ha : a < 0x10000) (hb : b < 0x10000)
    (h : hex4 a = hex4 b) : a = b := by
  unfold hex4 at h
  simp only [List.cons.injEq, and_true] at h
  obtain ⟨h1, h2, h3, h4⟩ := h
  have e1 := hexDig_inj (Nat.mod_lt _ (by omega)) (Nat.mod_lt _ (by omega)) h1
  have e2 := hexDig_inj (Nat.mod_lt _ (by omega)) (Nat.mod_lt _ (by omega)) h2
  have e3 := hexDig_inj (Nat.mod_lt _ (by omega)) (Nat.mod_lt _ (by omega)) h3
  have e4 := hexDig_inj (Nat.mod_lt _ (by omega)) (Nat.mod_lt _ (by omega)) h4
  omega

theorem hex4_append_inj {a b : Nat} {r s : List Char}
    (h : hex4 a ++ r = hex4 b ++ s) : hex4 a = hex4 b ∧ r = s :=
  List.append_inj h (by rw [hex4_length, hex4_length])

/-- Translation from a short-escape letter back to the escaped character. -/
def shortOf (e : Char) : Option Char :=
  if e = '"' then some '"'
  else if e = '\\' then some '\\'
  else if e = 'n' then some '\n'
  else if e = 't' then some '\t'
  else if e = 'r' then some '\r'
  else if e = 'b' then some (Char.ofNat 8)
  else if e = 'f' then some (Char.ofNat 12)
  else none

/-- Shape classification of `escChar`: plain character, two-character short
escape, single `\uXXXX` escape, or a surrogate pair. -/
theorem escChar_cases (c : Char) :
    (escChar c = [c] ∧ 0x20 ≤ c.toNat ∧ c.toNat ≤ 0x7e ∧ c ≠ '"' ∧ c ≠ '\\') ∨
    (∃ e, escChar c = ['\\', e] ∧
      e ∈ (['"', '\\', 'n', 't', 'r', 'b', 'f'] : List Char) ∧ shortOf e = some c) ∨
    (escChar c = '\\' :: 'u' :: hex4 c.toNat ∧ c.toNat < 0x10000) ∨
    (escChar c = ('\\' :: 'u' :: hex4 (0xd800 + (c.toNat - 0x10000) / 0x400)) ++
      ('\\' :: 'u' :: hex4 (0xdc00 + (c.toNat - 0x10000) % 0x400)) ∧
      0xffff < c.toNat) := by
  by_cases h1 : c = '"'
  · refine Or.inr (Or.inl ⟨'"', ?_, by decide, ?_⟩) <;> simp [escChar, h1, shortOf]
  by_cases h2 : c = '\\'
  · refine Or.inr (Or.inl ⟨'\\', ?_, by decide, ?_⟩) <;> simp [escChar, h1, h2, shortOf]
  by_cases h3 : c = '\n'
  · refine Or.inr (Or.inl ⟨'n', ?_, by decide, ?_⟩) <;>
      simp [escChar, h1, h2, h3, shortOf]
  by_cases h4 : c = '\t'
  · refine Or.inr (Or.inl ⟨'t', ?_, by decide, ?_⟩) <;>
      simp [escChar, h1, h2, h3, h4, shortOf]
  by_cases h5 : c = '\r'
  · refine Or.inr (Or.inl ⟨'r', ?_, by decide, ?_⟩) <;>
      simp [escChar, h1, h2, h3, h4, h5, shortOf]
  by_cases h6 : c.toNat = 8
  · refine Or.inr (Or.inl ⟨'b', ?_, by decide, ?_⟩)
    · simp [escChar, h1, h2, h3, h4, h5, h6]
    · have hc : Char.ofNat 8 = c := charToNat_inj (by rw [h6]; decide)
      rw [← hc]
      decide
  by_cases h7 : c.toNat = 12
  · refine Or.inr (Or.inl ⟨'f', ?_, by decide, ?_⟩)
    · simp [escChar, h1, h2, h3, h4, h5, h6, h7]
    · have hc : Char.ofNat 12 = c := charToNat_inj (by rw [h7]; decide)
      rw [← hc]
      decide
  by_cases h8 : c.toNat < 0x20 ∨ (0x7e < c.toNat ∧ c.toNat < 0x10000)
  · refine Or.inr (Or.inr (Or.inl ⟨?_, ?_⟩))
    · simp [escChar, h1, h2, h3, h4, h5, h6, h7, h8]
    · rcases char_valid_nat c with h | h <;> omega
  by_cases h9 : 0x7e < c.toNat
  · refine Or.inr (Or.inr (Or.inr ⟨?_, by omega⟩))
    unfold escChar
    rw [if_neg h1, if_neg h2, if_neg h3, if_neg h4, if_neg h5, if_neg h6,
      if_neg h7, if_neg h8, if_pos h9]
  · refine Or.inl ⟨?_, by omega, by omega, h1, h2⟩
    unfold escChar
    rw [if_neg h1, if_neg h2, if_neg h3, if_neg h4, if_neg h5, if_neg h6,
      if_neg h7, if_neg h8, if_neg h9]

theorem escChar_head_ne_quote {c d : Char} {t : List Char}
    (h : escChar c = d :: t) : d ≠ '"' := by
  rcases escChar_cases c with ⟨he, -, -, hq, -⟩ | ⟨e, he, -, -⟩ | ⟨he, -⟩ | ⟨he, -⟩ <;>
    rw [he] at h
  · cases h; exact hq
  all_goals simp only [List.cons_append, List.cons.injEq] at h
  all_goals rw [← h.1]; decide

/-- Character escapes form a prefix code. -/
theorem escChar_unamb {c1 c2 : Char} {r1 r2 : List Char}
    (h : escChar c1 ++ r1 = escChar c2 ++ r2) : c1 = c2 ∧ r1 = r2 := by
  rcases escChar_cases c1 with ⟨he1, hr1, hr1b, hq1, hb1⟩ | ⟨e1, he1, hm1, hs1⟩ |
    ⟨he1, hlt1⟩ | ⟨he1, hgt1⟩ <;>
    rcases escChar_cases c2 with ⟨he2, hr2, hr2b, hq2, hb2⟩ | ⟨e2, he2, hm2, hs2⟩ |
      ⟨he2, hlt2⟩ | ⟨he2, hgt2⟩ <;>
    rw [he1, he2] at h
  · -- plain / plain
    simp only [List.cons_append, List.nil_append, List.cons.injEq] at h
    exact ⟨h.1, h.2⟩
  · -- plain / short
    simp only [List.cons_append, List.nil_append, List.cons.injEq] at h
    exact absurd h.1 hb1
  · simp only [List.cons_append, List.nil_append, List.cons.injEq] at h
    exact absurd h.1 hb1
  · simp only [List.append_assoc, List.cons_append, List.nil_append,
      List.cons.injEq] at h
    exact absurd h.1 hb1
  · -- short / plain
    simp only [List.cons_append, List.nil_append, List.cons.injEq] at h
    exact absurd h.1.symm hb2
  · -- short / short
    simp only [List.cons_append, List.cons.injEq] at h
    obtain ⟨-, he, hr⟩ := h
    rw [he] at hs1
    rw [hs1] at hs2
    exact ⟨Option.some.inj hs2, hr⟩
  · -- short / u
    simp only [List.cons_append, List.cons.injEq] at h
    obtain ⟨-, he, -⟩ := h
    rw [he] at hm1
    exact absurd hm1 (by decide)
  · -- short / pair
    simp only [List.append_assoc, List.cons_append, List.cons.injEq] at h
    obtain ⟨-, he, -⟩ := h
    rw [he] at hm1
    exact absurd hm1 (by decide)
  · -- u / plain
    simp only [List.cons_append, List.nil_append, List.cons.injEq] at h
    exact absurd h.1.symm hb2
  · -- u / short
    simp only [List.cons_append, List.cons.injEq] at h
    obtain ⟨-, he, -⟩ := h
    rw [← he] at hm2
    exact absurd hm2 (by decide)
  · -- u / u
    simp only [List.cons_append, List.cons.injEq] at h
    obtain ⟨-, -, hh⟩ := h
    obtain ⟨hx, hr⟩ := hex4_append_inj hh
    exact ⟨charToNat_inj (hex4_inj hlt1 hlt2 hx), hr⟩
  · -- u / pair: the pair's high unit is a surrogate, a valid scalar is not
    exfalso
    simp only [List.append_assoc, List.cons_append, List.cons.injEq] at h
    obtain ⟨-, -, hh⟩ := h
    have hhi : 0xd800 + (c2.toNat - 0x10000) / 0x400 < 0x10000 := by
      rcases char_valid_nat c2 with hv | hv <;> omega
    obtain ⟨hx, -⟩ := hex4_append_inj hh
    have := hex4_inj hlt1 hhi hx
    rcases char_valid_nat c1 with hv | hv <;>
      rcases char_valid_nat c2 with hv2 | hv2 <;> omega
  · -- pair / plain
    simp only [List.append_assoc, List.cons_append, List.nil_append,
      List.cons.injEq] at h
    exact absurd h.1.symm hb2
  · -- pair / short
    simp only [List.append_assoc, List.cons_append, List.cons.injEq] at h
    obtain ⟨-, he, -⟩ := h
    rw [← he] at hm2
    exact absurd hm2 (by decide)
  · -- pair / u
    exfalso
    simp only [List.append_assoc, List.cons_append, List.cons.injEq] at h
    obtain ⟨-, -, hh⟩ := h
    have hhi : 0xd800 + (c1.toNat - 0x10000) / 0x400 < 0x10000 := by
      rcases char_valid_nat c1 with hv | hv <;> omega
    obtain ⟨hx, -⟩ := hex4_append_inj hh
    have := hex4_inj hhi hlt2 hx
    rcases char_valid_nat c1 with hv | hv <;>
      rcases char_valid_nat c2 with hv2 | hv2 <;> omega
  · -- pair / pair
    simp only [List.append_assoc, List.cons_append, List.cons.injEq] at h
    obtain ⟨-, -, hh⟩ := h
    obtain ⟨hx, hrest⟩ := hex4_append_inj hh
    have hhi1 : 0xd800 + (c1.toNat - 0x10000) / 0x400 < 0x10000 := by
      rcases char_valid_nat c1 with hv | hv <;> omega
    have hhi2 : 0xd800 + (c2.toNat - 0x10000) / 0x400 < 0x10000 := by
      rcases char_valid_nat c2 with hv | hv <;> omega
    have hdiv := hex4_inj hhi1 hhi2 hx
    simp only [List.cons_append, List.cons.injEq] at hrest
    obtain ⟨-, -, hh2⟩ := hrest
    obtain ⟨hx2, hr⟩ := hex4_append_inj hh2
    have hmod := hex4_inj (by omega) (by omega) hx2
    have hv1 := char_valid_nat c1
    have hv2 := char_valid_nat c2
    refine ⟨charToNat_inj ?_, hr⟩
    omega

/-- Structural induction principle for `Json` giving hypotheses on the
members of arrays and objects. -/
theorem Json.indOn (motive : Json → Prop)
    (hnull : motive .null) (hbool : ∀ b, motive (.bool b))
    (hint : ∀ n, motive (.int n)) (hstr : ∀ s, motive (.str s))
    (harr : ∀ xs, (∀ x ∈ xs, motive x) → motive (.arr xs))
    (hobj : ∀ kvs, (∀ p ∈ kvs, motive p.2) → motive (.obj kvs)) :
    ∀ j, motive j
  | .null => hnull
  | .bool b => hbool b
  | .int n => hint n
  | .str s => hstr s
  | .arr xs => harr xs (fun x hx =>
      Json.indOn motive hnull hbool hint hstr harr hobj x)
  | .obj kvs => hobj kvs (fun p hp =>
      Json.indOn motive hnull hbool hint hstr harr hobj p.2)
termination_by j => sizeOf j
decreasing_by
  · have := List.sizeOf_lt_of_mem hx
    simp only [Json.arr.sizeOf_spec]
    omega
  · have h1 := List.sizeOf_lt_of_mem hp
    obtain ⟨k, v⟩ := p
    simp only [Json.obj.sizeOf_spec, Prod.mk.sizeOf_spec] at *
    omega

theorem renderInt_head (n : Int) :
    ∃ c t, renderInt n = c :: t ∧ (c = '-' ∨ c.isDigit = true) := by
  unfold renderInt
  by_cases h : n < 0
  · exact ⟨'-', renderNat (-n).toNat, by simp [h], Or.inl rfl⟩
  · simp only [h, if_false]
    cases hx : renderNat n.toNat with
    | nil => exact absurd hx (renderNat_ne_nil _)
    | cons c t =>
      exact ⟨c, t, rfl, Or.inr (renderNat_all_digits n.toNat c (by rw [hx]; simp))⟩

/-- Every rendered value starts with a character identifying its class. -/
theorem render_head (j : Json) : ∃ c t, render j = c :: t ∧
    (c = 'n' ∨ c = 't' ∨ c = 'f' ∨ c = '"' ∨ c = '[' ∨ c = '{' ∨
      c = '-' ∨ c.isDigit = true) := by
  cases j with
  | null => exact ⟨'n', _, rfl, by simp⟩
  | bool b =>
    cases b
    · exact ⟨'f', _, rfl, by simp⟩
    · exact ⟨'t', _, rfl, by simp⟩
  | int n =>
    obtain ⟨c, t, e, k⟩ := renderInt_head n
    exact ⟨c, t, by simp [render, e], by tauto⟩
  | str s => exact ⟨'"', _, rfl, by simp⟩
  | arr xs => exact ⟨'[', renderElems xs ++ [']'], rfl, by simp⟩
  | obj kvs => exact ⟨'{', renderMembers kvs ++ ['}'], rfl, by simp⟩

theorem render_head_sep (j : Json) {c : Char} {t : List Char}
    (h : render j = c :: t) (hc : c = ']' ∨ c = ',' ∨ c = '}' ∨ c = ':') :
    False := by
  obtain ⟨c', t', e, k⟩ := render_head j
  rw [h] at e
  injection e with e1 _
  subst e1
  rcases hc with hc | hc | hc | hc <;> subst hc <;>
    rcases k with k | k | k | k | k | k | k | k <;> first | cases k | simp at k

theorem escChar_shape (c : Char) : ∃ d t, escChar c = d :: t ∧ d ≠ '"' := by
  rcases escChar_cases c with ⟨he, -, -, hq, -⟩ | ⟨e, he, -, -⟩ | ⟨he, -⟩ | ⟨he, -⟩
  · exact ⟨c, [], he, hq⟩
  · exact ⟨'\\', _, he, by decide⟩
  · exact ⟨'\\', _, he, by decide⟩
  · exact ⟨'\\', _, by rw [he]; rfl, by decide⟩

theorem escList_unamb : ∀ d1 d2 : List Char, ∀ r1 r2 : List Char,
    escList d1 ++ '"' :: r1 = escList d2 ++ '"' :: r2 → d1 = d2 ∧ r1 = r2 := by
  intro d1
  induction d1 with
  | nil =>
    intro d2 r1 r2 h
    cases d2 with
    | nil => simpa using h
    | cons c t =>
      exfalso
      obtain ⟨d, t', e, hne⟩ := escChar_shape c
      simp only [escList, List.nil_append, List.append_assoc, e,
        List.cons_append, List.cons.injEq] at h
      exact hne h.1.symm
  | cons c t ih =>
    intro d2 r1 r2 h
    cases d2 with
    | nil =>
      exfalso
      obtain ⟨d, t', e, hne⟩ := escChar_shape c
      simp only [escList, List.nil_append, List.append_assoc, e,
        List.cons_append, List.cons.injEq] at h
      exact hne h.1
    | cons c' t' =>
      simp only [escList, List.append_assoc] at h
      obtain ⟨hc, hrest⟩ := escChar_unamb h
      obtain ⟨ht, hr⟩ := ih t' r1 r2 hrest
      exact ⟨by rw [hc, ht], hr⟩

theorem renderStr_unamb {s1 s2 : String} {r1 r2 : List Char}
    (h : renderStr s1 ++ r1 = renderStr s2 ++ r2) : s1 = s2 ∧ r1 = r2 := by
  unfold renderStr at h
  simp only [List.cons_append, List.append_assoc, List.singleton_append,
    List.cons.injEq, true_and] at h
  obtain ⟨hd, hr⟩ := escList_unamb s1.data s2.data r1 r2 h
  refine ⟨?_, hr⟩
  cases s1
  cases s2
  exact congrArg String.mk (by simpa using hd)

/-- Unambiguity property of a rendered value: together with a non-digit
tail it determines the value and the tail. -/
def Unamb (a : Json) : Prop :=
  ∀ b r s, goodTail r → goodTail s →
    render a ++ r = render b ++ s → a = b ∧ r = s

theorem goodTail_elemsTl (t : List Json) {c : Char} (hc : c.isDigit = false)
    (r : List Char) : goodTail (renderElemsTl t ++ c :: r) := by
  cases t <;> simp [renderElemsTl, goodTail, hc]

theorem goodTail_membersTl (t : List (String × Json)) {c : Char}
    (hc : c.isDigit = false) (r : List Char) :
    goodTail (renderMembersTl t ++ c :: r) := by
  cases t with
  | nil => simpa [renderMembersTl, goodTail]
  | cons p u => obtain ⟨k, v⟩ := p; simp [renderMembersTl, goodTail]

theorem elems_unamb : ∀ xs : List Json, (∀ x ∈ xs, Unamb x) →
    (∀ ys r s, goodTail r → goodTail s →
      renderElems xs ++ ']' :: r = renderElems ys ++ ']' :: s →
      xs = ys ∧ r = s) ∧
    (∀ ys r s, goodTail r → goodTail s →
      renderElemsTl xs ++ ']' :: r = renderElemsTl ys ++ ']' :: s →
      xs = ys ∧ r = s) := by
  intro xs
  induction xs with
  | nil =>
    intro _
    constructor
    · intro ys r s hr hs h
      cases ys with
      | nil => simpa [renderElems] using h
      | cons y u =>
        exfalso
        obtain ⟨c, t', e, -⟩ := render_head y
        simp only [renderElems, List.nil_append, e, List.cons_append,
          List.append_assoc, List.cons.injEq] at h
        exact render_head_sep y e (by simp [← h.1])
    · intro ys r s hr hs h
      cases ys with
      | nil => simpa [renderElemsTl] using h
      | cons y u =>
        exfalso
        simp only [renderElemsTl, List.nil_append, List.cons_append,
          List.cons.injEq] at h
        exact absurd h.1 (by decide)
  | cons x t iht =>
    intro hU
    have hUx : Unamb x := hU x (by simp)
    have hUt : ∀ z ∈ t, Unamb z := fun z hz => hU z (by simp [hz])
    have key : ∀ ys r s, goodTail r → goodTail s →
        render x ++ (renderElemsTl t ++ ']' :: r) =
          renderElems ys ++ ']' :: s → x :: t = ys ∧ r = s := by
      intro ys r s hr hs h
      cases ys with
      | nil =>
        exfalso
        obtain ⟨c, t', e, -⟩ := render_head x
        simp only [renderElems, List.nil_append, e, List.cons_append,
          List.cons.injEq] at h
        exact render_head_sep x e (by simp [h.1])
      | cons y u =>
        simp only [renderElems, List.append_assoc] at h
        obtain ⟨hxy, hrest⟩ := hUx y _ _
          (goodTail_elemsTl t (by decide) r)
          (goodTail_elemsTl u (by decide) s) h
        obtain ⟨htu, hr⟩ := (iht hUt).2 u r s hr hs hrest
        exact ⟨by rw [hxy, htu], hr⟩
    constructor
    · intro ys r s hr hs h
      simp only [renderElems, List.append_assoc] at h
      exact key ys r s hr hs (by simpa [renderElems, List.append_assoc] using h)
    · intro ys r s hr hs h
      cases ys with
      | nil =>
        exfalso
        simp only [renderElemsTl, List.nil_append, List.cons_append,
          List.cons.injEq] at h
        exact absurd h.1 (by decide)
      | cons y u =>
        simp only [renderElemsTl, List.cons_append, List.append_assoc,
          List.cons.injEq, true_and] at h
        have := key (y :: u) r s hr hs
          (by simpa [renderElems, List.append_assoc] using h)
        exact this

theorem members_unamb : ∀ kvs : List (String × Json), (∀ p ∈ kvs, Unamb p.2) →
    (∀ ys r s, goodTail r → goodTail s →
      renderMembers kvs ++ '}' :: r = renderMembers ys ++ '}' :: s →
      kvs = ys ∧ r = s) ∧
    (∀ ys r s, goodTail r → goodTail s →
      renderMembersTl kvs ++ '}' :: r = renderMembersTl ys ++ '}' :: s →
      kvs = ys ∧ r = s) := by
  intro kvs
  induction kvs with
  | nil =>
    intro _
    constructor
    · intro ys r s hr hs h
      cases ys with
      | nil => simpa [renderMembers] using h
      | cons p u =>
        exfalso
        obtain ⟨k, v⟩ := p
        simp only [renderMembers, List.nil_append, renderStr,
          List.cons_append, List.append_assoc, List.cons.injEq] at h
        exact absurd h.1 (by decide)
    · intro ys r s hr hs h
      cases ys with
      | nil => simpa [renderMembersTl] using h
      | cons p u =>
        exfalso
        obtain ⟨k, v⟩ := p
        simp only [renderMembersTl, List.nil_append, List.cons_append,
          List.cons.injEq] at h
        exact absurd h.1 (by decide)
  | cons p t iht =>
    intro hU
    obtain ⟨k, v⟩ := p
    have hUv : Unamb v := hU (k, v) (by simp)
    have hUt : ∀ q ∈ t, Unamb q.2 := fun q hq => hU q (by simp [hq])
    have key : ∀ ys r s, goodTail r → goodTail s →
        renderStr k ++ ':' :: (render v ++ (renderMembersTl t ++ '}' :: r)) =
          renderMembers ys ++ '}' :: s → (k, v) :: t = ys ∧ r = s := by
      intro ys r s hr hs h
      cases ys with
      | nil =>
        exfalso
        simp only [renderMembers, List.nil_append, renderStr,
          List.cons_append, List.cons.injEq] at h
        exact absurd h.1 (by decide)
      | cons q u =>
        obtain ⟨k2, v2⟩ := q
        simp only [renderMembers, List.append_assoc, List.cons_append] at h
        obtain ⟨hk, hrest⟩ := renderStr_unamb h
        injection hrest with _ hrest2
        obtain ⟨hv, hr2⟩ := hUv v2 _ _
          (goodTail_membersTl t (by decide) r)
          (goodTail_membersTl u (by decide) s) hrest2
        obtain ⟨ht, hr⟩ := (iht hUt).2 u r s hr hs hr2
        exact ⟨by rw [hk, hv, ht], hr⟩
    constructor
    · intro ys r s hr hs h
      exact key ys r s hr hs
        (by simpa [renderMembers, List.append_assoc, List.cons_append] using h)
    · intro ys r s hr hs h
      cases ys with
      | nil =>
        exfalso
        simp only [renderMembersTl, List.nil_append, List.cons_append,
          List.cons.injEq] at h
        exact absurd h.1 (by decide)
      | cons q u =>
        obtain ⟨k2, v2⟩ := q
        simp only [renderMembersTl, List.cons_append, List.append_assoc,
          List.cons.injEq, true_and] at h
        exact key ((k2, v2) :: u) r s hr hs
          (by simpa [renderMembers, List.append_assoc, List.cons_append] using h)

theorem int_head_clash {c : Char} (hc1 : c ≠ '-') (hc2 : c.isDigit = false)
    {X s : List Char} {n : Int} (h : c :: X = renderInt n ++ s) : False := by
  obtain ⟨c2, t2, e, k⟩ := renderInt_head n
  rw [e] at h
  simp only [List.cons_append, List.cons.injEq] at h
  rcases k with k | k
  · exact hc1 (h.1.trans k)
  · rw [← h.1, hc2] at k
    cases k

/-- Main unambiguity theorem: a rendered JSON value followed by a non-digit
tail determines the value and the tail. -/
theorem render_unamb : ∀ a, Unamb a := by
  intro a
  induction a using Json.indOn with
  | hnull =>
    intro b r s hr hs h
    cases b with
    | null => exact ⟨rfl, by simpa [render] using h⟩
    | bool b2 =>
      cases b2 <;>
        · simp only [render, List.cons_append, List.cons.injEq] at h
          exact absurd h.1 (by decide)
    | int n =>
      exfalso
      simp only [render, List.cons_append] at h
      exact int_head_clash (by decide) (by decide) h
    | str s2 =>
      simp only [render, renderStr, List.cons_append, List.cons.injEq] at h
      exact absurd h.1 (by decide)
    | arr ys =>
      simp only [render, List.cons_append, List.cons.injEq] at h
      exact absurd h.1 (by decide)
    | obj ys =>
      simp only [render, List.cons_append, List.cons.injEq] at h
      exact absurd h.1 (by decide)
  | hbool b1 =>
    intro b r s hr hs h
    cases b with
    | null =>
      cases b1 <;>
        · simp only [render, List.cons_append, List.cons.injEq] at h
          exact absurd h.1 (by decide)
    | bool b2 =>
      cases b1 <;> cases b2 <;>
        first
        | exact ⟨rfl, by simpa [render] using h⟩
        | · simp only [render, List.cons_append, List.cons.injEq] at h
            exact absurd h.1 (by decide)
    | int n =>
      exfalso
      cases b1 <;>
        · simp only [render, List.cons_append] at h
          exact int_head_clash (by decide) (by decide) h
    | str s2 =>
      cases b1 <;>
        · simp only [render, renderStr, List.cons_append, List.cons.injEq] at h
          exact absurd h.1 (by decide)
    | arr ys =>
      cases b1 <;>
        · simp only [render, List.cons_append, List.cons.injEq] at h
          exact absurd h.1 (by decide)
    | obj ys =>
      cases b1 <;>
        · simp only [render, List.cons_append, List.cons.injEq] at h
          exact absurd h.1 (by decide)
  | hint n =>
    intro b r s hr hs h
    cases b with
    | null =>
      exfalso
      simp only [render, List.cons_append] at h
      exact int_head_clash (by decide) (by decide) h.symm
    | bool b2 =>
      exfalso
      cases b2 <;>
        · simp only [render, List.cons_append] at h
          exact int_head_clash (by decide) (by decide) h.symm
    | int n2 =>
      simp only [render] at h
      obtain ⟨hn, hr2⟩ := renderInt_unamb hr hs h
      exact ⟨by rw [hn], hr2⟩
    | str s2 =>
      exfalso
      simp only [render, renderStr, List.cons_append] at h
      exact int_head_clash (by decide) (by decide) h.symm
    | arr ys =>
      exfalso
      simp only [render, List.cons_append] at h
      exact int_head_clash (by decide) (by decide) h.symm
    | obj ys =>
      exfalso
      simp only [render, List.cons_append] at h
      exact int_head_clash (by decide) (by decide) h.symm
  | hstr s1 =>
    intro b r s hr hs h
    cases b with
    | null =>
      simp only [render, renderStr, List.cons_append, List.cons.injEq] at h
      exact absurd h.1 (by decide)
    | bool b2 =>
      cases b2 <;>
        · simp only [render, renderStr, List.cons_append, List.cons.injEq] at h
          exact absurd h.1 (by decide)
    | int n =>
      exfalso
      simp only [render, renderStr, List.cons_append] at h
      exact int_head_clash (by decide) (by decide) h
    | str s2 =>
      simp only [render] at h
      obtain ⟨hs2, hr2⟩ := renderStr_unamb h
      exact ⟨by rw [hs2], hr2⟩
    | arr ys =>
      simp only [render, renderStr, List.cons_append, List.cons.injEq] at h
      exact absurd h.1 (by decide)
    | obj ys =>
      simp only [render, renderStr, List.cons_append, List.cons.injEq] at h
      exact absurd h.1 (by decide)
  | harr xs hIH =>
    intro b r s hr hs h
    cases b with
    | null =>
      simp only [render, List.cons_append, List.cons.injEq] at h
      exact absurd h.1 (by decide)
    | bool b2 =>
      cases b2 <;>
        · simp only [render, List.cons_append, List.cons.injEq] at h
          exact absurd h.1 (by decide)
    | int n =>
      exfalso
      simp only [render, List.cons_append] at h
      exact int_head_clash (by decide) (by decide) h
    | str s2 =>
      simp only [render, renderStr, List.cons_append, List.cons.injEq] at h
      exact absurd h.1 (by decide)
    | arr ys =>
      simp only [render, List.cons_append, List.append_assoc,
        List.singleton_append, List.cons.injEq, true_and] at h
      obtain ⟨hxy, hr2⟩ := (elems_unamb xs hIH).1 ys r s hr hs h
      exact ⟨by rw [hxy], hr2⟩
    | obj ys =>
      simp only [render, List.cons_append, List.cons.injEq] at h
      exact absurd h.1 (by decide)
  | hobj kvs hIH =>
    intro b r s hr hs h
    cases b with
    | null =>
      simp only [render, List.cons_append, List.cons.injEq] at h
      exact absurd h.1 (by decide)
    | bool b2 =>
      cases b2 <;>
        · simp only [render, List.cons_append, List.cons.injEq] at h
          exact absurd h.1 (by decide)
    | int n =>
      exfalso
      simp only [render, List.cons_append] at h
      exact int_head_clash (by decide) (by decide) h
    | str s2 =>
      simp only [render, renderStr, List.cons_append, List.cons.injEq] at h
      exact absurd h.1 (by decide)
    | arr ys =>
      simp only [render, List.cons_append, List.cons.injEq] at h
      exact absurd h.1 (by decide)
    | obj ys =>
      simp only [render, List.cons_append, List.append_assoc,
        List.singleton_append, List.cons.injEq, true_and] at h
      obtain ⟨hxy, hr2⟩ := (members_unamb kvs hIH).1 ys r s hr hs h
      exact ⟨by rw [hxy], hr2⟩

/-- Injectivity of the compact renderer. -/
theorem render_inj {a b : Json} (h : render a = render b) : a = b :=
  (render_unamb a b [] [] trivial trivial (by simpa using h)).1

/-! ## Sorting and payload lemmas -/

theorem insortKey_perm (p : String × Json) (l : List (String × Json)) :
    List.Perm (insortKey p l) (p :: l) := by
  induction l with
  | nil => simp [insortKey]
  | cons q t ih =>
    simp only [insortKey]
    by_cases h : p.1 ≤ q.1
    · simp [h]
    · simp only [h, if_false]
      exact (ih.cons q).trans (List.Perm.swap p q t)

theorem sortByKey_perm (l : List (String × Json)) :
    List.Perm (sortByKey l) l := by
  induction l with
  | nil => simp [sortByKey]
  | cons p t ih =>
    simp only [sortByKey]
    exact (insortKey_perm p (sortByKey t)).trans (ih.cons p)

theorem insortKey_sorted {p : String × Json} {l : List (String × Json)}
    (h : l.Pairwise (fun a b => a.1 ≤ b.1)) :
    (insortKey p l).Pairwise (fun a b => a.1 ≤ b.1) := by
  induction l with
  | nil => simp [insortKey]
  | cons q t ih =>
    rcases List.pairwise_cons.mp h with ⟨hq, ht⟩
    simp only [insortKey]
    by_cases hpq : p.1 ≤ q.1
    · simp only [hpq, if_true]
      refine List.Pairwise.cons ?_ h
      intro z hz
      rcases List.mem_cons.mp hz with hz2 | hz2
      · rw [hz2]; exact hpq
      · exact le_trans hpq (hq z hz2)
    · simp only [hpq, if_false]
      refine List.Pairwise.cons ?_ (ih ht)
      intro z hz
      rcases List.mem_cons.mp ((insortKey_perm p t).mem_iff.mp hz) with hz2 | hz2
      · rw [hz2]; exact le_of_not_le hpq
      · exact hq z hz2

theorem sortByKey_sorted (l : List (String × Json)) :
    (sortByKey l).Pairwise (fun a b => a.1 ≤ b.1) := by
  induction l with
  | nil => simp [sortByKey]
  | cons p t ih => exact insortKey_sorted ih

theorem pairwise_lt_of_le_nodup {l : List (String × Json)}
    (hle : l.Pairwise (fun a b => a.1 ≤ b.1)) (hnd : (l.map Prod.fst).Nodup) :
    l.Pairwise (fun a b => a.1 < b.1) := by
  induction l with
  | nil => simp
  | cons p t ih =>
    rcases List.pairwise_cons.mp hle with ⟨hp, ht⟩
    simp only [List.map_cons, List.nodup_cons] at hnd
    refine List.Pairwise.cons ?_ (ih ht hnd.2)
    intro z hz
    refine lt_of_le_of_ne (hp z hz) ?_
    intro hcontra
    exact hnd.1 (by rw [hcontra]; exact List.mem_map_of_mem Prod.fst hz)

theorem sortByKey_eq_of_perm {l1 l2 : List (String × Json)}
    (h : List.Perm l1 l2) (hnd : (l1.map Prod.fst).Nodup) :
    sortByKey l1 = sortByKey l2 := by
  haveI : IsAntisymm (String × Json) (fun a b => a.1 < b.1) :=
    ⟨fun a b h1 h2 => absurd h2 (lt_asymm h1)⟩
  have hperm : List.Perm (sortByKey l1) (sortByKey l2) :=
    (sortByKey_perm l1).trans (h.trans (sortByKey_perm l2).symm)
  have hnd1 : ((sortByKey l1).map Prod.fst).Nodup :=
    (((sortByKey_perm l1).map Prod.fst).nodup_iff).mpr hnd
  have hnd2 : ((sortByKey l2).map Prod.fst).Nodup :=
    ((hperm.map Prod.fst).nodup_iff).mp hnd1
  exact List.eq_of_perm_of_sorted hperm
    (pairwise_lt_of_le_nodup (sortByKey_sorted l1) hnd1)
    (pairwise_lt_of_le_nodup (sortByKey_sorted l2) hnd2)

theorem sortDeepPairs_eq_map (l : List (String × Json)) :
    sortDeepPairs l = l.map (fun p => (p.1, sortDeep p.2)) := by
  induction l with
  | nil => rfl
  | cons p t ih => obtain ⟨k, v⟩ := p; simp [sortDeepPairs, ih]

theorem filter_setKey_excluded {ex : List String} {k : String} (v : Json)
    (hk : k ∈ ex) (P : Payload) :
    (setKey P k v).filter (keepKey ex) = P.filter (keepKey ex) := by
  induction P with
  | nil => simp [setKey, List.filter, keepKey, hk]
  | cons q t ih =>
    obtain ⟨k', v'⟩ := q
    simp only [setKey]
    by_cases h : k' = k
    · subst h
      simp [List.filter, keepKey, hk]
    · simp only [h, if_false]
      by_cases hkeep : k' ∈ ex
      · simp [List.filter, keepKey, hkeep, ih]
      · simp [List.filter, keepKey, hkeep, ih]

theorem filter_setKey_kept {ex : List String} {k : String} (v : Json)
    (hk : k ∉ ex) (P : Payload) :
    (setKey P k v).filter (keepKey ex) = setKey (P.filter (keepKey ex)) k v := by
  induction P with
  | nil => simp [setKey, List.filter, keepKey, hk]
  | cons q t ih =>
    obtain ⟨k', v'⟩ := q
    simp only [setKey]
    by_cases h : k' = k
    · subst h
      simp [List.filter, keepKey, hk, setKey]
    · simp only [h, if_false]
      by_cases hkeep : k' ∈ ex
      · simp [List.filter, keepKey, hkeep, ih]
      · simp [List.filter, keepKey, hkeep, ih, setKey, h]

theorem lookup_setKey_self (P : Payload) (k : String) (v : Json) :
    lookupKey (setKey P k v) k = some v := by
  induction P with
  | nil => simp [setKey, lookupKey]
  | cons q t ih =>
    obtain ⟨k', v'⟩ := q
    simp only [setKey]
    by_cases h : k' = k
    · simp [h, lookupKey]
    · simp [h, lookupKey, ih]

theorem lookup_setKey_other (P : Payload) {k k2 : String} (v : Json)
    (h : k2 ≠ k) : lookupKey (setKey P k v) k2 = lookupKey P k2 := by
  induction P with
  | nil => simp [setKey, lookupKey, Ne.symm h]
  | cons q t ih =>
    obtain ⟨k', v'⟩ := q
    simp only [setKey]
    by_cases hk : k' = k
    · subst hk
      simp [lookupKey, Ne.symm h]
    · simp only [hk, if_false]
      by_cases hk2 : k' = k2
      · simp [lookupKey, hk2]
      · simp [lookupKey, hk2, ih]

theorem lookup_filter {ex : List String} {k : String}
    (hk : k ∉ ex) (P : Payload) :
    lookupKey (P.filter (keepKey ex)) k = lookupKey P k := by
  induction P with
  | nil => simp [lookupKey]
  | cons q t ih =>
    obtain ⟨k', v'⟩ := q
    by_cases h : k' = k
    · subst h
      simp [List.filter, keepKey, hk, lookupKey]
    · by_cases hkeep : k' ∈ ex
      · simp [List.filter, keepKey, hkeep, lookupKey, h, ih]
      · simp [List.filter, keepKey, hkeep, lookupKey, h, ih]

theorem mem_setKey_self (P : Payload) (k : String) (v : Json) :
    (k, v) ∈ setKey P k v := by
  induction P with
  | nil => simp [setKey]
  | cons q t ih =>
    obtain ⟨k', v'⟩ := q
    simp only [setKey]
    by_cases h : k' = k
    · simp [h]
    · simp [h, ih]

theorem nodupKeys_filter {P : Payload} (h : nodupKeys P) (f : String × Json → Bool) :
    nodupKeys (P.filter f) := by
  unfold nodupKeys at *
  exact List.Nodup.sublist ((List.filter_sublist P).map Prod.fst) h

theorem lookup_eq_of_mem_nodup {P : Payload} (hnd : nodupKeys P)
    {k : String} {v : Json} (hm : (k, v) ∈ P) : lookupKey P k = some v := by
  induction P with
  | nil => simp at hm
  | cons q t ih =>
    obtain ⟨k', v'⟩ := q
    unfold nodupKeys at hnd
    simp only [List.map_cons, List.nodup_cons] at hnd
    rcases List.mem_cons.mp hm with hm | hm
    · injection hm with h1 h2
      subst h1
      subst h2
      simp [lookupKey]
    · have hne : k' ≠ k := by
        intro hcontra
        exact hnd.1 (by rw [hcontra]; exact List.mem_map_of_mem Prod.fst hm)
      simp [lookupKey, hne, ih hnd.2 hm]

theorem canonicalise_setKey_sig (P : Payload) (v : Json) :
    canonicalise (setKey P "hmac_signature" v) hmacExclude =
      canonicalise P hmacExclude := by
  unfold canonicalise
  rw [filter_setKey_excluded v (by simp [hmacExclude]) P]

theorem sign_setKey_sig (mac : String → String → String) (P : Payload)
    (v : Json) (S : String) :
    sign_payload mac (setKey P "hmac_signature" v) S = sign_payload mac P S := by
  unfold sign_payload
  rw [canonicalise_setKey_sig]

theorem canonicalise_setKey_comm (P : Payload) {k : String}
    (hk : k ∉ hmacExclude) (v0 vn : Json) :
    canonicalise (setKey (setKey P "hmac_signature" v0) k vn) hmacExclude =
      canonicalise (setKey P k vn) hmacExclude := by
  unfold canonicalise
  rw [filter_setKey_kept vn hk, filter_setKey_excluded v0 (by simp [hmacExclude]),
    ← filter_setKey_kept vn hk]

/-- Changing the value stored at a non-signature key (to a value that differs
as a Python value, i.e. after deep key-sorting) changes the canonical bytes. -/
theorem canonicalise_setKey_ne {P : Payload} (hnd : nodupKeys P) {k : String}
    (hk : k ∉ hmacExclude) {v vn : Json} (hv : lookupKey P k = some v)
    (hne : sortDeep vn ≠ sortDeep v) :
    canonicalise (setKey P k vn) hmacExclude ≠ canonicalise P hmacExclude := by
  intro hcontra
  unfold canonicalise at hcontra
  injection hcontra with hmk
  have hsd := render_inj hmk
  rw [filter_setKey_kept vn hk P] at hsd
  simp only [sortDeep] at hsd
  have hsd2 := Json.obj.inj hsd
  have hperm : List.Perm (sortDeepPairs (setKey (P.filter (keepKey hmacExclude)) k vn))
      (sortDeepPairs (P.filter (keepKey hmacExclude))) := by
    refine (sortByKey_perm _).symm.trans ?_
    rw [hsd2]
    exact sortByKey_perm _
  have hmem : (k, sortDeep vn) ∈
      sortDeepPairs (setKey (P.filter (keepKey hmacExclude)) k vn) := by
    rw [sortDeepPairs_eq_map]
    exact List.mem_map_of_mem _ (mem_setKey_self _ k vn)
  have hmem2 := hperm.mem_iff.mp hmem
  rw [sortDeepPairs_eq_map] at hmem2
  obtain ⟨⟨k2, w⟩, hwF, hweq⟩ := List.mem_map.mp hmem2
  simp only [Prod.mk.injEq] at hweq
  obtain ⟨hk2, hsw⟩ := hweq
  have hndF : nodupKeys (P.filter (keepKey hmacExclude)) := nodupKeys_filter hnd _
  have hlook : lookupKey (P.filter (keepKey hmacExclude)) k = some v := by
    rw [lookup_filter hk P]
    exact hv
  have h2 := lookup_eq_of_mem_nodup hndF hwF
  rw [hk2, hlook] at h2
  injection h2 with h3
  rw [← h3] at hsw
  exact hne hsw.symm

/-- C1: signing then verifying succeeds with the right secret, fails with a
different secret (for any injective MAC), fails after any in-place change of a
non-signature field, and fails when the stored signature is absent or empty.
The HMAC-SHA256 primitive enters as the parameter `mac`, assumed injective
(the idealization of collision resistance) and never returning the empty
string; a Python value change is modelled as a `sortDeep`-inequivalent value. -/
theorem claim_C1_sign_verify (mac : String → String → String)
    (hInj : ∀ s1 m1 s2 m2, mac s1 m1 = mac s2 m2 → s1 = s2 ∧ m1 = m2)
    (hNe : ∀ s m, mac s m ≠ "") (P : Payload) (hP : nodupKeys P) (S Sx : String) :
    (verify_signature mac
      (setKey P "hmac_signature" (.str (sign_payload mac P S))) S = true) ∧
    (Sx ≠ S → verify_signature mac
      (setKey P "hmac_signature" (.str (sign_payload mac P S))) Sx = false) ∧
    (∀ k v vn, k ≠ "hmac_signature" → lookupKey P k = some v →
      sortDeep vn ≠ sortDeep v →
      verify_signature mac
        (setKey (setKey P "hmac_signature" (.str (sign_payload mac P S))) k vn)
        S = false) ∧
    (∀ Q : Payload, lookupKey Q "hmac_signature" = none →
      verify_signature mac Q S = false) ∧
    (verify_signature mac (setKey P "hmac_signature" (.str "")) S = false) := by
  refine ⟨?_, ?_, ?_, ?_, ?_⟩
  · simp only [verify_signature, lookup_setKey_self]
    rw [if_neg (by exact hNe S _)]
    rw [sign_setKey_sig]
    simp [compareDigest]
  · intro hSx
    simp only [verify_signature, lookup_setKey_self]
    rw [if_neg (by exact hNe S _)]
    rw [sign_setKey_sig]
    unfold sign_payload compareDigest
    rw [beq_eq_false_iff_ne]
    intro hcontra
    exact hSx (hInj Sx _ S _ hcontra).1
  · intro k v vn hk hv hne
    have hlk : lookupKey
        (setKey (setKey P "hmac_signature" (.str (sign_payload mac P S))) k vn)
        "hmac_signature" = some (.str (sign_payload mac P S)) := by
      rw [lookup_setKey_other _ _ (Ne.symm hk), lookup_setKey_self]
    simp only [verify_signature, hlk]
    rw [if_neg (by exact hNe S _)]
    unfold sign_payload compareDigest
    rw [beq_eq_false_iff_ne]
    intro hcontra
    have hc := (hInj S _ S _ hcontra).2
    rw [canonicalise_setKey_comm P (by simp [hmacExclude, hk]) _ vn] at hc
    exact canonicalise_setKey_ne hP (by simp [hmacExclude, hk]) hv hne hc
  · intro Q hQ
    simp only [verify_signature, hQ]
  · simp [verify_signature, lookup_setKey_self]

/-- Concrete injective MAC used to witness the idealized HMAC hypotheses:
the pair of JSON string literals of secret and message. -/
def macW (s m : String) : String := String.mk (renderStr s ++ renderStr m)

theorem macW_inj : ∀ s1 m1 s2 m2, macW s1 m1 = macW s2 m2 → s1 = s2 ∧ m1 = m2 := by
  intro s1 m1 s2 m2 h
  injection h with h2
  obtain ⟨hs, hm⟩ := renderStr_unamb h2
  refine ⟨hs, ?_⟩
  exact (@renderStr_unamb m1 m2 [] [] (by simpa using hm)).1

theorem macW_ne : ∀ s m, macW s m ≠ "" := by
  intro s m h
  have h2 := congrArg String.data h
  simp [macW, renderStr] at h2

theorem claim_C1_sign_verify_witness :
    (verify_signature macW (setKey [("a", Json.int 1)] "hmac_signature"
      (.str (sign_payload macW [("a", Json.int 1)] "s1"))) "s1" = true) ∧
    (verify_signature macW (setKey [("a", Json.int 1)] "hmac_signature"
      (.str (sign_payload macW [("a", Json.int 1)] "s1"))) "s2" = false) ∧
    (verify_signature macW (setKey (setKey [("a", Json.int 1)] "hmac_signature"
      (.str (sign_payload macW [("a", Json.int 1)] "s1"))) "a" (Json.int 2))
      "s1" = false) := by
  have h := claim_C1_sign_verify macW macW_inj macW_ne [("a", Json.int 1)]
    (by decide) "s1" "s2"
  exact ⟨h.1, h.2.1 (by decide), h.2.2.1 "a" (Json.int 1) (Json.int 2)
    (by decide) rfl (by decide)⟩

/-! ## Canonical-serialization properties (claim C2) -/

mutual

/-- Does the value contain key `k` in some object, at any depth? -/
def hasKeyDeep : Json → String → Bool
  | .null, _ => false
  | .bool _, _ => false
  | .int _, _ => false
  | .str _, _ => false
  | .arr xs, k => hasKeyDeepList xs k
  | .obj kvs, k => hasKeyDeepPairs kvs k

def hasKeyDeepList : List Json → String → Bool
  | [], _ => false
  | x :: t, k => hasKeyDeep x k || hasKeyDeepList t k

def hasKeyDeepPairs : List (String × Json) → String → Bool
  | [], _ => false
  | (k2, v) :: t, k => (k2 == k) || hasKeyDeep v k || hasKeyDeepPairs t k

end

/-- Top-level keys of an object value. -/
def topKeys : Json → List String
  | .obj kvs => kvs.map Prod.fst
  | _ => []

/-- Adjacent-sortedness of an association list by key. -/
def adjSorted : List (String × Json) → Bool
  | [] => true
  | [_] => true
  | p :: q :: t => decide (p.1 ≤ q.1) && adjSorted (q :: t)

mutual

/-- Every object level has its keys in non-decreasing order. -/
def keysSorted : Json → Bool
  | .null => true
  | .bool _ => true
  | .int _ => true
  | .str _ => true
  | .arr xs => keysSortedList xs
  | .obj kvs => adjSorted kvs && keysSortedPairs kvs

def keysSortedList : List Json → Bool
  | [] => true
  | x :: t => keysSorted x && keysSortedList t

def keysSortedPairs : List (String × Json) → Bool
  | [] => true
  | (_, v) :: t => keysSorted v && keysSortedPairs t

end

mutual

/-- No string atom (key or value) of the JSON value contains a space. -/
def noSpace : Json → Bool
  | .null => true
  | .bool _ => true
  | .int _ => true
  | .str s => ! s.data.contains ' '
  | .arr xs => noSpaceList xs
  | .obj kvs => noSpacePairs kvs

def noSpaceList : List Json → Bool
  | [] => true
  | x :: t => noSpace x && noSpaceList t

def noSpacePairs : List (String × Json) → Bool
  | [] => true
  | (k, v) :: t => (! k.data.contains ' ') && noSpace v && noSpacePairs t

end

mutual

/-- Model of Python `==` on JSON values: equality up to the order of object
members at any depth. -/
def permDeep : Json → Json → Prop
  | .null, .null => True
  | .bool a, .bool b => a = b
  | .int a, .int b => a = b
  | .str a, .str b => a = b
  | .arr xs, .arr ys => permDeepList xs ys
  | .obj a, .obj b => ∃ m, permDeepPairs a m ∧ List.Perm m b
  | _, _ => False

def permDeepList : List Json → List Json → Prop
  | [], [] => True
  | x :: xs, y :: ys => permDeep x y ∧ permDeepList xs ys
  | _, _ => False

def permDeepPairs : List (String × Json) → List (String × Json) → Prop
  | [], [] => True
  | (k, v) :: xs, (k2, v2) :: ys => k = k2 ∧ permDeep v v2 ∧ permDeepPairs xs ys
  | _, _ => False

end

mutual

/-- Every object level of the value has pairwise-distinct keys (true of every
value arising from Python data). -/
def nodupDeep : Json → Bool
  | .null => true
  | .bool _ => true
  | .int _ => true
  | .str _ => true
  | .arr xs => nodupDeepList xs
  | .obj kvs => decide (kvs.map Prod.fst).Nodup && nodupDeepPairs kvs

def nodupDeepList : List Json → Bool
  | [] => true
  | x :: t => nodupDeep x && nodupDeepList t

def nodupDeepPairs : List (String × Json) → Bool
  | [] => true
  | (_, v) :: t => nodupDeep v && nodupDeepPairs t

end

theorem sortDeepList_eq_map (l : List Json) : sortDeepList l = l.map sortDeep := by
  induction l with
  | nil => rfl
  | cons x t ih => simp [sortDeepList, ih]

theorem adjSorted_of_pairwise : ∀ {l : List (String × Json)},
    l.Pairwise (fun a b => a.1 ≤ b.1) → adjSorted l = true := by
  intro l h
  induction l with
  | nil => rfl
  | cons p t ih =>
    cases t with
    | nil => rfl
    | cons q u =>
      rcases List.pairwise_cons.mp h with ⟨hp, ht⟩
      simp [adjSorted, hp q (by simp), ih ht]

theorem keysSortedList_iff : ∀ l : List Json,
    keysSortedList l = true ↔ ∀ x ∈ l, keysSorted x = true := by
  intro l
  induction l with
  | nil => simp [keysSortedList]
  | cons x t ih => simp [keysSortedList, ih]

theorem keysSortedPairs_iff : ∀ l : List (String × Json),
    keysSortedPairs l = true ↔ ∀ p ∈ l, keysSorted p.2 = true := by
  intro l
  induction l with
  | nil => simp [keysSortedPairs]
  | cons p t ih =>
    obtain ⟨k, v⟩ := p
    simp [keysSortedPairs, ih]

/-- The canonical ordering really sorts every object level. -/
theorem keysSorted_sortDeep : ∀ j, keysSorted (sortDeep j) = true := by
  intro j
  induction j using Json.indOn with
  | hnull => rfl
  | hbool b => rfl
  | hint n => rfl
  | hstr s => rfl
  | harr xs hIH =>
    simp only [sortDeep, keysSorted]
    rw [keysSortedList_iff, sortDeepList_eq_map]
    intro x hx
    obtain ⟨y, hy, hxy⟩ := List.mem_map.mp hx
    rw [← hxy]
    exact hIH y hy
  | hobj kvs hIH =>
    simp only [sortDeep, keysSorted, Bool.and_eq_true]
    constructor
    · exact adjSorted_of_pairwise (sortByKey_sorted _)
    · rw [keysSortedPairs_iff]
      intro p hp
      have hp2 : p ∈ sortDeepPairs kvs := (sortByKey_perm _).mem_iff.mp hp
      rw [sortDeepPairs_eq_map] at hp2
      obtain ⟨q, hq, hpq⟩ := List.mem_map.mp hp2
      rw [← hpq]
      exact hIH q hq

/-- Top-level keys after the canonical filter never include an excluded key. -/
theorem topKeys_exclude (P : Payload) {k : String} (hk : k ∈ hmacExclude) :
    k ∉ topKeys (sortDeep (Json.obj (P.filter (keepKey hmacExclude)))) := by
  intro hmem
  simp only [sortDeep, topKeys] at hmem
  obtain ⟨p, hp, hpk⟩ := List.mem_map.mp hmem
  have hp2 : p ∈ sortDeepPairs (P.filter (keepKey hmacExclude)) :=
    (sortByKey_perm _).mem_iff.mp hp
  rw [sortDeepPairs_eq_map] at hp2
  obtain ⟨q, hq, hqp⟩ := List.mem_map.mp hp2
  have hkeep := (List.mem_filter.mp hq).2
  rw [keepKey] at hkeep
  simp only [Bool.not_eq_true'] at hkeep
  have : q.1 = k := by rw [← hpk, ← hqp]
  rw [this] at hkeep
  simp at hkeep
  exact hkeep hk

theorem ws_chars {c : Char} (h : c.isWhitespace = true) :
    c = ' ' ∨ c = '\t' ∨ c = '\r' ∨ c = '\n' := by
  simp only [Char.isWhitespace, Bool.or_eq_true, decide_eq_true_eq] at h
  tauto

theorem digit_not_ws {c : Char} (h : c.isDigit = true) : c.isWhitespace = false := by
  cases hw : c.isWhitespace
  · rfl
  · rcases ws_chars hw with rfl | rfl | rfl | rfl <;> exact absurd h (by decide)

theorem hexDig_not_ws (d : Nat) : (hexDig d).isWhitespace = false := by
  unfold hexDig
  split <;> decide

theorem hex4_not_ws (m : Nat) : ∀ x ∈ hex4 m, x.isWhitespace = false := by
  intro x hx
  simp only [hex4, List.mem_cons, List.not_mem_nil, or_false] at hx
  rcases hx with rfl | rfl | rfl | rfl <;> exact hexDig_not_ws _

theorem renderNat_not_ws (n : Nat) : ∀ c ∈ renderNat n, c.isWhitespace = false :=
  fun c hc => digit_not_ws (renderNat_all_digits n c hc)

theorem renderInt_not_ws (n : Int) : ∀ c ∈ renderInt n, c.isWhitespace = false := by
  unfold renderInt
  by_cases h : n < 0 <;> simp only [h, if_true, if_false]
  · intro c hc
    rcases List.mem_cons.mp hc with rfl | hc
    · decide
    · exact renderNat_not_ws _ c hc
  · exact renderNat_not_ws _

theorem escChar_not_ws {c : Char} (hc : c ≠ ' ') :
    ∀ d ∈ escChar c, d.isWhitespace = false := by
  rcases escChar_cases c with ⟨he, h1, h2, -, -⟩ | ⟨e, he, hm, -⟩ | ⟨he, -⟩ |
    ⟨he, -⟩ <;> rw [he] <;> intro d hd
  · rcases List.mem_singleton.mp hd with rfl
    cases hw : d.isWhitespace
    · rfl
    · rcases ws_chars hw with rfl | rfl | rfl | rfl
      · exact absurd rfl hc
      · exact absurd h1 (by decide)
      · exact absurd h1 (by decide)
      · exact absurd h1 (by decide)
  · simp only [List.mem_cons, List.not_mem_nil, or_false] at hd
    rcases hd with rfl | rfl
    · decide
    · simp only [List.mem_cons, List.not_mem_nil, or_false] at hm
      rcases hm with rfl | rfl | rfl | rfl | rfl | rfl | rfl <;> decide
  · simp only [List.mem_cons] at hd
    rcases hd with rfl | rfl | hd
    · decide
    · decide
    · exact hex4_not_ws _ d hd
  · simp only [List.cons_append, List.mem_cons, List.mem_append] at hd
    rcases hd with rfl | rfl | hd | rfl | rfl | hd
    · decide
    · decide
    · exact hex4_not_ws _ d hd
    · decide
    · decide
    · exact hex4_not_ws _ d hd

theorem escList_not_ws : ∀ l : List Char, (! l.contains ' ') = true →
    ∀ d ∈ escList l, d.isWhitespace = false := by
  intro l
  induction l with
  | nil => intro _ d hd; simp [escList] at hd
  | cons c t ih =>
    intro h d hd
    simp only [List.contains_cons, Bool.not_or, Bool.and_eq_true,
      Bool.not_eq_true'] at h
    simp only [escList, List.mem_append] at hd
    rcases hd with hd | hd
    · refine escChar_not_ws ?_ d hd
      intro hcontra
      rw [hcontra] at h
      simp at h
    · exact ih (by simpa using h.2) d hd

theorem renderStr_not_ws {s : String} (h : (! s.data.contains ' ') = true) :
    ∀ c ∈ renderStr s, c.isWhitespace = false := by
  intro c hc
  simp only [renderStr, List.mem_cons, List.mem_append, List.not_mem_nil,
    or_false] at hc
  rcases hc with rfl | hc | rfl
  · decide
  · exact escList_not_ws s.data h c hc
  · decide

theorem elems_not_ws : ∀ xs : List Json,
    (∀ x ∈ xs, noSpace x = true → ∀ c ∈ render x, c.isWhitespace = false) →
    noSpaceList xs = true →
    (∀ c ∈ renderElems xs, c.isWhitespace = false) ∧
    (∀ c ∈ renderElemsTl xs, c.isWhitespace = false) := by
  intro xs
  induction xs with
  | nil => intro _ _; exact ⟨by simp [renderElems], by simp [renderElemsTl]⟩
  | cons x t ih =>
    intro hIH hns
    simp only [noSpaceList, Bool.and_eq_true] at hns
    have hx := hIH x (by simp) hns.1
    have ht := ih (fun z hz => hIH z (by simp [hz])) hns.2
    constructor
    · intro c hc
      simp only [renderElems, List.mem_append] at hc
      rcases hc with hc | hc
      · exact hx c hc
      · exact ht.2 c hc
    · intro c hc
      simp only [renderElemsTl, List.mem_cons, List.mem_append] at hc
      rcases hc with rfl | hc | hc
      · decide
      · exact hx c hc
      · exact ht.2 c hc

theorem members_not_ws : ∀ kvs : List (String × Json),
    (∀ p ∈ kvs, noSpace p.2 = true → ∀ c ∈ render p.2, c.isWhitespace = false) →
    noSpacePairs kvs = true →
    (∀ c ∈ renderMembers kvs, c.isWhitespace = false) ∧
    (∀ c ∈ renderMembersTl kvs, c.isWhitespace = false) := by
  intro kvs
  induction kvs with
  | nil => intro _ _; exact ⟨by simp [renderMembers], by simp [renderMembersTl]⟩
  | cons p t ih =>
    intro hIH hns
    obtain ⟨k, v⟩ := p
    simp only [noSpacePairs, Bool.and_eq_true] at hns
    have hv := hIH (k, v) (by simp) hns.1.2
    have ht := ih (fun z hz => hIH z (by simp [hz])) hns.2
    have hk := renderStr_not_ws (s := k) hns.1.1
    constructor
    · intro c hc
      simp only [renderMembers, List.mem_append, List.mem_cons,
        List.not_mem_nil, or_false] at hc
      rcases hc with hc | rfl | hc | hc
      · exact hk c hc
      · decide
      · exact hv c hc
      · exact ht.2 c hc
    · intro c hc
      simp only [renderMembersTl, List.mem_cons, List.mem_append] at hc
      rcases hc with rfl | hc | rfl | hc | hc
      · decide
      · exact hk c hc
      · decide
      · exact hv c hc
      · exact ht.2 c hc

/-- With no space inside any string atom, the compact rendering contains no
whitespace at all (newlines, tabs and controls inside strings are escaped). -/
theorem noSpace_render : ∀ j, noSpace j = true →
    ∀ c ∈ render j, c.isWhitespace = false := by
  intro j
  induction j using Json.indOn with
  | hnull =>
    intro _ c hc
    simp only [render, List.mem_cons, List.not_mem_nil, or_false] at hc
    rcases hc with rfl | rfl | rfl | rfl <;> decide
  | hbool b =>
    intro _ c hc
    cases b <;> simp only [render, List.mem_cons, List.not_mem_nil, or_false] at hc
    · rcases hc with rfl | rfl | rfl | rfl | rfl <;> decide
    · rcases hc with rfl | rfl | rfl | rfl <;> decide
  | hint n =>
    intro _ c hc
    simp only [render] at hc
    exact renderInt_not_ws n c hc
  | hstr s =>
    intro h c hc
    simp only [noSpace] at h
    simp only [render] at hc
    exact renderStr_not_ws h c hc
  | harr xs hIH =>
    intro h c hc
    simp only [noSpace] at h
    simp only [render, List.mem_cons, List.mem_append, List.not_mem_nil,
      or_false] at hc
    rcases hc with rfl | hc | rfl
    · decide
    · exact (elems_not_ws xs hIH h).1 c hc
    · decide
  | hobj kvs hIH =>
    intro h c hc
    simp only [noSpace] at h
    simp only [render, List.mem_cons, List.mem_append, List.not_mem_nil,
      or_false] at hc
    rcases hc with rfl | hc | rfl
    · decide
    · exact (members_not_ws kvs hIH h).1 c hc
    · decide

theorem noSpaceList_iff : ∀ l : List Json,
    noSpaceList l = true ↔ ∀ x ∈ l, noSpace x = true := by
  intro l
  induction l with
  | nil => simp [noSpaceList]
  | cons x t ih => simp [noSpaceList, ih]

theorem noSpacePairs_iff : ∀ l : List (String × Json),
    noSpacePairs l = true ↔
      ∀ p ∈ l, (! p.1.data.contains ' ') = true ∧ noSpace p.2 = true := by
  intro l
  induction l with
  | nil => simp [noSpacePairs]
  | cons p t ih =>
    obtain ⟨k, v⟩ := p
    simp only [noSpacePairs, Bool.and_eq_true, ih, List.mem_cons]
    constructor
    · rintro ⟨⟨h1, h2⟩, h3⟩ q hq
      rcases hq with rfl | hq
      · exact ⟨h1, h2⟩
      · exact h3 q hq
    · intro h
      exact ⟨⟨(h (k, v) (Or.inl rfl)).1, (h (k, v) (Or.inl rfl)).2⟩,
        fun q hq => h q (Or.inr hq)⟩

theorem nodupDeepPairs_iff : ∀ l : List (String × Json),
    nodupDeepPairs l = true ↔ ∀ p ∈ l, nodupDeep p.2 = true := by
  intro l
  induction l with
  | nil => simp [nodupDeepPairs]
  | cons p t ih =>
    obtain ⟨k, v⟩ := p
    simp [nodupDeepPairs, ih]

theorem nodupDeepList_iff : ∀ l : List Json,
    nodupDeepList l = true ↔ ∀ x ∈ l, nodupDeep x = true := by
  intro l
  induction l with
  | nil => simp [nodupDeepList]
  | cons x t ih => simp [nodupDeepList, ih]

theorem sortDeepPairs_keys (l : List (String × Json)) :
    (sortDeepPairs l).map Prod.fst = l.map Prod.fst := by
  rw [sortDeepPairs_eq_map, List.map_map]
  rfl

/-- Sorting deep is invariant under `noSpace`. -/
theorem noSpace_sortDeep : ∀ j, noSpace j = true → noSpace (sortDeep j) = true := by
  intro j
  induction j using Json.indOn with
  | hnull => intro h; exact h
  | hbool b => intro h; exact h
  | hint n => intro h; exact h
  | hstr s => intro h; exact h
  | harr xs hIH =>
    intro h
    simp only [noSpace, sortDeep] at *
    rw [noSpaceList_iff] at h ⊢
    rw [sortDeepList_eq_map]
    intro x hx
    obtain ⟨y, hy, hxy⟩ := List.mem_map.mp hx
    rw [← hxy]
    exact hIH y hy (h y hy)
  | hobj kvs hIH =>
    intro h
    simp only [noSpace, sortDeep] at *
    rw [noSpacePairs_iff] at h ⊢
    intro p hp
    have hp2 : p ∈ sortDeepPairs kvs := (sortByKey_perm _).mem_iff.mp hp
    rw [sortDeepPairs_eq_map] at hp2
    obtain ⟨q, hq, hpq⟩ := List.mem_map.mp hp2
    obtain ⟨h1, h2⟩ := h q hq
    constructor
    · rw [← hpq]; exact h1
    · rw [← hpq]; exact hIH q hq h2

theorem permDeepPairs_keys : ∀ a m : List (String × Json), permDeepPairs a m →
    a.map Prod.fst = m.map Prod.fst := by
  intro a
  induction a with
  | nil =>
    intro m h
    cases m with
    | nil => rfl
    | cons q u => simp [permDeepPairs] at h
  | cons p t ih =>
    intro m h
    cases m with
    | nil => obtain ⟨k, v⟩ := p; simp [permDeepPairs] at h
    | cons q u =>
      obtain ⟨k, v⟩ := p
      obtain ⟨k2, v2⟩ := q
      simp only [permDeepPairs] at h
      obtain ⟨hk, -, ht⟩ := h
      simp [hk, ih u ht]

theorem sortDeepList_permDeep : ∀ xs ys : List Json,
    (∀ x ∈ xs, ∀ b, nodupDeep x = true → permDeep x b → sortDeep x = sortDeep b) →
    nodupDeepList xs = true → permDeepList xs ys →
    sortDeepList xs = sortDeepList ys := by
  intro xs
  induction xs with
  | nil =>
    intro ys _ _ h
    cases ys with
    | nil => rfl
    | cons y u => simp [permDeepList] at h
  | cons x t ih =>
    intro ys hIH hnd h
    cases ys with
    | nil => simp [permDeepList] at h
    | cons y u =>
      simp only [permDeepList] at h
      simp only [nodupDeepList, Bool.and_eq_true] at hnd
      simp only [sortDeepList]
      rw [hIH x (by simp) y hnd.1 h.1,
        ih u (fun z hz => hIH z (by simp [hz])) hnd.2 h.2]

theorem sortDeepPairs_permDeep : ∀ kvs m : List (String × Json),
    (∀ p ∈ kvs, ∀ b, nodupDeep p.2 = true → permDeep p.2 b →
      sortDeep p.2 = sortDeep b) →
    nodupDeepPairs kvs = true → permDeepPairs kvs m →
    sortDeepPairs kvs = sortDeepPairs m := by
  intro kvs
  induction kvs with
  | nil =>
    intro m _ _ h
    cases m with
    | nil => rfl
    | cons q u => simp [permDeepPairs] at h
  | cons p t ih =>
    intro m hIH hnd h
    cases m with
    | nil => obtain ⟨k, v⟩ := p; simp [permDeepPairs] at h
    | cons q u =>
      obtain ⟨k, v⟩ := p
      obtain ⟨k2, v2⟩ := q
      simp only [permDeepPairs] at h
      obtain ⟨hk, hv, ht⟩ := h
      simp only [nodupDeepPairs, Bool.and_eq_true] at hnd
      simp only [sortDeepPairs]
      rw [hk, hIH (k, v) (by simp) v2 hnd.1 hv,
        ih u (fun z hz => hIH z (by simp [hz])) hnd.2 ht]

/-- Python-equal values (deep permutations of object members) have equal
deep-sorted forms, hence identical canonical bytes. -/
theorem sortDeep_permDeep : ∀ a b, nodupDeep a = true → permDeep a b →
    sortDeep a = sortDeep b := by
  intro a
  induction a using Json.indOn with
  | hnull =>
    intro b _ h
    cases b <;> first | rfl | simp [permDeep] at h
  | hbool b1 =>
    intro b _ h
    cases b <;> simp only [permDeep] at h <;> first | (rw [h]) | exact h.elim
  | hint n =>
    intro b _ h
    cases b <;> simp only [permDeep] at h <;> first | (rw [h]) | exact h.elim
  | hstr s =>
    intro b _ h
    cases b <;> simp only [permDeep] at h <;> first | (rw [h]) | exact h.elim
  | harr xs hIH =>
    intro b hnd h
    cases b <;> simp only [permDeep] at h <;> try exact h.elim
    case arr ys =>
      simp only [sortDeep]
      rw [sortDeepList_permDeep xs ys hIH (by simpa [nodupDeep] using hnd) h]
  | hobj kvs hIH =>
    intro b hnd h
    cases b <;> simp only [permDeep] at h <;> try exact h.elim
    case obj ys =>
      obtain ⟨m, hpw, hperm⟩ := h
      simp only [nodupDeep, Bool.and_eq_true, decide_eq_true_eq] at hnd
      simp only [sortDeep]
      have h1 : sortDeepPairs kvs = sortDeepPairs m :=
        sortDeepPairs_permDeep kvs m
          (fun p hp => hIH p hp) ((nodupDeepPairs_iff kvs).mpr
            ((nodupDeepPairs_iff kvs).mp hnd.2)) hpw
      have h2 : List.Perm (sortDeepPairs m) (sortDeepPairs ys) := by
        rw [sortDeepPairs_eq_map, sortDeepPairs_eq_map]
        exact hperm.map _
      rw [h1]
      rw [sortByKey_eq_of_perm h2 ?_]
      rw [sortDeepPairs_keys]
      rw [← permDeepPairs_keys kvs m hpw]
      exact hnd.1

/-- C2 (counterexample): `canonicalise` removes `hmac_signature` only at the
top level, so a payload with a nested `hmac_signature` key keeps it in the
canonical serialization, and a space inside a string value survives into the
output bytes — refuting the claim as stated. -/
theorem claim_C2_canonical_counterexample :
    (canonicalise [("a", Json.obj [("hmac_signature", Json.str "x y")])]
      hmacExclude = "\x7b\"a\":\x7b\"hmac_signature\":\"x y\"\x7d\x7d") ∧
    (hasKeyDeep (Json.obj
      (([("a", Json.obj [("hmac_signature", Json.str "x y")])] : Payload).filter
        (keepKey hmacExclude))) "hmac_signature" = true) ∧
    ((canonicalise [("a", Json.obj [("hmac_signature", Json.str "x y")])]
      hmacExclude).data.contains ' ' = true) := by
  refine ⟨by decide, by decide, by decide⟩

/-- C2 (amended): the canonical serialization excludes the top-level
`hmac_signature` key, has every object level sorted by key, contains no
whitespace as long as no string atom of the serialized value contains a
space, and is byte-identical on Python-equal payloads (deep permutations of
object members), hence across repeated invocations. -/
theorem claim_C2_canonical_properties (P Q : Payload) :
    ("hmac_signature" ∉
      topKeys (sortDeep (Json.obj (P.filter (keepKey hmacExclude))))) ∧
    (keysSorted (sortDeep (Json.obj (P.filter (keepKey hmacExclude)))) = true) ∧
    (noSpace (Json.obj (P.filter (keepKey hmacExclude))) = true →
      ∀ c ∈ (canonicalise P hmacExclude).data, c.isWhitespace = false) ∧
    (nodupDeep (Json.obj P) = true → permDeep (Json.obj P) (Json.obj Q) →
      canonicalise P hmacExclude = canonicalise Q hmacExclude) := by
  refine ⟨topKeys_exclude P (by simp [hmacExclude]), keysSorted_sortDeep _,
    ?_, ?_⟩
  · intro h c hc
    simp only [canonicalise] at hc
    exact noSpace_render _ (noSpace_sortDeep _ h) c hc
  · intro hnd hperm
    simp only [permDeep] at hperm
    obtain ⟨m, hpw, hp⟩ := hperm
    simp only [nodupDeep, Bool.and_eq_true, decide_eq_true_eq] at hnd
    have hfil : permDeep (Json.obj (P.filter (keepKey hmacExclude)))
        (Json.obj (Q.filter (keepKey hmacExclude))) := by
      simp only [permDeep]
      refine ⟨m.filter (keepKey hmacExclude), ?_, hp.filter _⟩
      clear hnd hp
      induction P generalizing m with
      | nil =>
        cases m with
        | nil => simp [permDeepPairs]
        | cons q u => simp [permDeepPairs] at hpw
      | cons p t ih =>
        cases m with
        | nil => obtain ⟨k, v⟩ := p; simp [permDeepPairs] at hpw
        | cons q u =>
          obtain ⟨k, v⟩ := p
          obtain ⟨k2, v2⟩ := q
          simp only [permDeepPairs] at hpw
          obtain ⟨hk, hv, ht⟩ := hpw
          by_cases hkeep : keepKey hmacExclude (k, v) = true
          · have hkeep2 : keepKey hmacExclude (k2, v2) = true := by
              simpa [keepKey, ← hk] using hkeep
            rw [List.filter_cons_of_pos hkeep, List.filter_cons_of_pos hkeep2]
            exact ⟨hk, hv, ih u ht⟩
          · have hkeep2 : ¬ keepKey hmacExclude (k2, v2) = true := by
              simpa [keepKey, ← hk] using hkeep
            rw [List.filter_cons_of_neg (by simpa using hkeep),
              List.filter_cons_of_neg (by simpa using hkeep2)]
            exact ih u ht
    have hndf : nodupDeep (Json.obj (P.filter (keepKey hmacExclude))) = true := by
      simp only [nodupDeep, Bool.and_eq_true, decide_eq_true_eq]
      refine ⟨List.Nodup.sublist ((List.filter_sublist P).map Prod.fst) hnd.1, ?_⟩
      rw [nodupDeepPairs_iff]
      intro p hp2
      exact (nodupDeepPairs_iff P).mp hnd.2 p (List.mem_filter.mp hp2).1
    unfold canonicalise
    rw [sortDeep_permDeep _ _ hndf hfil]

/-- Witness for the amended C2 on a concrete payload: top-level reordering of
a nested-and-flat payload leaves the canonical bytes unchanged, the filtered
value is whitespace-free, and the serialized object is key-sorted. -/
theorem claim_C2_canonical_properties_witness :
    (keysSorted (sortDeep (Json.obj
      (([("b", Json.int 1), ("a", Json.int 2)] : Payload).filter
        (keepKey hmacExclude)))) = true) ∧
    (∀ c ∈ (canonicalise [("b", Json.int 1), ("a", Json.int 2)]
      hmacExclude).data, c.isWhitespace = false) ∧
    (canonicalise [("b", Json.int 1), ("a", Json.int 2)] hmacExclude =
      canonicalise [("a", Json.int 2), ("b", Json.int 1)] hmacExclude) := by
  have h := claim_C2_canonical_properties
    [("b", Json.int 1), ("a", Json.int 2)] [("a", Json.int 2), ("b", Json.int 1)]
  refine ⟨h.2.1, h.2.2.1 (by decide), h.2.2.2 (by decide) ?_⟩
  simp only [permDeep]
  refine ⟨[("b", Json.int 1), ("a", Json.int 2)], ?_, ?_⟩
  · exact ⟨rfl, by simp [permDeep], rfl, by simp [permDeep], trivial⟩
  · exact List.Perm.swap _ _ _

/-! ## Risk scorer (`cacp.scoring.risk_scorer`)

Arithmetic is modelled over `ℚ` (exact decimals); `datetime.fromisoformat`
is modelled by the optional parsed timestamp carried by the appointment
(`none` models an unparseable `scheduled_at`), and `datetime.now` by the
explicit parameter `now` (seconds since the epoch). -/

/-- Surface of the parsed `scheduled_at` the scorer consumes: epoch seconds,
local hour, and weekday (Monday = 0). -/
structure Sched where
  epoch : ℚ
  hour : Nat
  weekday : Nat

/-- Appointment map fields read anywhere in the pipeline; `none`/empty model
missing keys. -/
structure ApptMap where
  appointment_id : Option String
  patient_id : Option String
  clinic_id : Option String
  previous_no_shows : Int
  is_first_visit : Bool
  scheduled_at : Option Sched
  patient_phone : String
  patient_whatsapp : Bool

def W_NO_SHOW_HISTORY : ℚ := 0.40

def W_FIRST_VISIT : ℚ := 0.15

def W_LEAD_TIME : ℚ := 0.15

def W_TIME_OF_DAY : ℚ := 0.10

def W_DAY_OF_WEEK : ℚ := 0.10

def W_CONTACT : ℚ := 0.10

/-- Model of `_clamp`. -/
def clamp (value : ℚ) : ℚ := max 0 (min 1 value)

/-- Model of `_level`. -/
def levelOf (score : ℚ) : String :=
  if score < 0.3 then "low" else if score < 0.6 then "medium" else "high"

/-- Round-half-to-even on rationals, the semantics of Python `round`. -/
def roundHalfEven (q : ℚ) : ℤ :=
  if q - ⌊q⌋ < 1/2 then ⌊q⌋
  else if 1/2 < q - ⌊q⌋ then ⌊q⌋ + 1
  else if ⌊q⌋ % 2 = 0 then ⌊q⌋ else ⌊q⌋ + 1

/-- Model of Python `round(x, 4)`. -/
def round4 (q : ℚ) : ℚ := (roundHalfEven (q * 10000) : ℚ) / 10000

def noShowSignal (prev : Int) : ℚ :=
  if prev = 0 then 0 else if prev = 1 then 0.5 else if prev = 2 then 0.75 else 1

def firstVisitSignal (fv : Bool) : ℚ := if fv then 0.6 else 0

/-- Model of `RiskScorer._lead_time_signal`. -/
def leadTimeSignal (now : ℚ) (sched : Option Sched) : ℚ :=
  match sched with
  | none => 0.3
  | some t =>
    let days := (t.epoch - now) / 86400
    if days < 1 then 0.7
    else if days < 3 then 0.3
    else if days > 14 then 0.5
    else 0.1

def timeOfDaySignal (sched : Option Sched) : ℚ :=
  match sched with
  | none => 0.3
  | some t =>
    if t.hour < 9 ∨ 17 ≤ t.hour then 0.6 else if t.hour < 11 then 0.2 else 0.1

def dayOfWeekSignal (sched : Option Sched) : ℚ :=
  match sched with
  | none => 0.3
  | some t =>
    if t.weekday = 0 ∨ t.weekday = 4 then 0.6
    else if t.weekday = 5 ∨ t.weekday = 6 then 0.4
    else 0.1

def contactSignal (phone : String) (wa : Bool) : ℚ :=
  if phone ≠ "" ∧ wa then 0 else if phone ≠ "" ∨ wa then 0.3 else 0.8

structure RiskResult where
  score : ℚ
  level : String
  factors : List (String × ℚ)

/-- Weighted sum of the six factor signals (the `raw` local of
`RiskScorer.score`). -/
def weightedSum (now : ℚ) (a : ApptMap) : ℚ :=
  W_NO_SHOW_HISTORY * noShowSignal a.previous_no_shows
    + W_FIRST_VISIT * firstVisitSignal a.is_first_visit
    + W_LEAD_TIME * leadTimeSignal now a.scheduled_at
    + W_TIME_OF_DAY * timeOfDaySignal a.scheduled_at
    + W_DAY_OF_WEEK * dayOfWeekSignal a.scheduled_at
    + W_CONTACT * contactSignal a.patient_phone a.patient_whatsapp

/-- Model of `RiskScorer.score`. -/
def RiskScorer.score (now : ℚ) (appointment : ApptMap) : RiskResult :=
  let h := noShowSignal appointment.previous_no_shows
  let fv := firstVisitSignal appointment.is_first_visit
  let lt := leadTimeSignal now appointment.scheduled_at
  let tod := timeOfDaySignal appointment.scheduled_at
  let dow := dayOfWeekSignal appointment.scheduled_at
  let c := contactSignal appointment.patient_phone appointment.patient_whatsapp
  let raw := W_NO_SHOW_HISTORY * h + W_FIRST_VISIT * fv + W_LEAD_TIME * lt
    + W_TIME_OF_DAY * tod + W_DAY_OF_WEEK * dow + W_CONTACT * c
  let final := clamp (round4 raw)
  { score := final
    level := levelOf final
    factors := [("no_show_history", h), ("first_visit", fv), ("lead_time", lt),
      ("time_of_day", tod), ("day_of_week", dow), ("contact", c)] }

theorem noShow_contrib (prev : Int) : ∃ n : ℕ,
    W_NO_SHOW_HISTORY * noShowSignal prev = (n : ℚ) / 1000 ∧ n ≤ 400 := by
  unfold W_NO_SHOW_HISTORY noShowSignal
  by_cases h0 : prev = 0
  · exact ⟨0, by norm_num [h0], by norm_num⟩
  by_cases h1 : prev = 1
  · exact ⟨200, by norm_num [h0, h1], by norm_num⟩
  by_cases h2 : prev = 2
  · exact ⟨300, by norm_num [h0, h1, h2], by norm_num⟩
  · exact ⟨400, by norm_num [h0, h1, h2], by norm_num⟩

theorem firstVisit_contrib (fv : Bool) : ∃ n : ℕ,
    W_FIRST_VISIT * firstVisitSignal fv = (n : ℚ) / 1000 ∧ n ≤ 90 := by
  unfold W_FIRST_VISIT firstVisitSignal
  cases fv
  · exact ⟨0, by norm_num, by norm_num⟩
  · exact ⟨90, by norm_num, by norm_num⟩

theorem leadTime_contrib (now : ℚ) (sched : Option Sched) : ∃ n : ℕ,
    W_LEAD_TIME * leadTimeSignal now sched = (n : ℚ) / 1000 ∧ n ≤ 105 := by
  unfold W_LEAD_TIME leadTimeSignal
  cases sched with
  | none => exact ⟨45, by norm_num, by norm_num⟩
  | some t =>
    by_cases h1 : (t.epoch - now) / 86400 < 1
    · exact ⟨105, by norm_num [h1], by norm_num⟩
    by_cases h2 : (t.epoch - now) / 86400 < 3
    · exact ⟨45, by norm_num [h1, h2], by norm_num⟩
    by_cases h3 : (t.epoch - now) / 86400 > 14
    · exact ⟨75, by norm_num [h1, h2, h3], by norm_num⟩
    · exact ⟨15, by norm_num [h1, h2, h3], by norm_num⟩

theorem timeOfDay_contrib (sched : Option Sched) : ∃ n : ℕ,
    W_TIME_OF_DAY * timeOfDaySignal sched = (n : ℚ) / 1000 ∧ n ≤ 60 := by
  unfold W_TIME_OF_DAY timeOfDaySignal
  cases sched with
  | none => exact ⟨30, by norm_num, by norm_num⟩
  | some t =>
    by_cases h1 : t.hour < 9 ∨ 17 ≤ t.hour
    · exact ⟨60, by norm_num [h1], by norm_num⟩
    by_cases h2 : t.hour < 11
    · exact ⟨20, by norm_num [h1, h2], by norm_num⟩
    · exact ⟨10, by norm_num [h1, h2], by norm_num⟩

theorem dayOfWeek_contrib (sched : Option Sched) : ∃ n : ℕ,
    W_DAY_OF_WEEK * dayOfWeekSignal sched = (n : ℚ) / 1000 ∧ n ≤ 60 := by
  unfold W_DAY_OF_WEEK dayOfWeekSignal
  cases sched with
  | none => exact ⟨30, by norm_num, by norm_num⟩
  | some t =>
    by_cases h1 : t.weekday = 0 ∨ t.weekday = 4
    · exact ⟨60, by norm_num [h1], by norm_num⟩
    by_cases h2 : t.weekday = 5 ∨ t.weekday = 6
    · exact ⟨40, by norm_num [h1, h2], by norm_num⟩
    · exact ⟨10, by norm_num [h1, h2], by norm_num⟩

theorem contact_contrib (phone : String) (wa : Bool) : ∃ n : ℕ,
    W_CONTACT * contactSignal phone wa = (n : ℚ) / 1000 ∧ n ≤ 80 := by
  unfold W_CONTACT contactSignal
  by_cases h1 : phone ≠ "" ∧ wa
  · exact ⟨0, by norm_num [h1], by norm_num⟩
  by_cases h2 : phone ≠ "" ∨ wa
  · exact ⟨30, by norm_num [h1, h2], by norm_num⟩
  · exact ⟨80, by norm_num [h1, h2], by norm_num⟩

theorem weightedSum_bound (now : ℚ) (a : ApptMap) : ∃ n : ℕ,
    weightedSum now a = (n : ℚ) / 1000 ∧ n ≤ 895 := by
  obtain ⟨n1, e1, b1⟩ := noShow_contrib a.previous_no_shows
  obtain ⟨n2, e2, b2⟩ := firstVisit_contrib a.is_first_visit
  obtain ⟨n3, e3, b3⟩ := leadTime_contrib now a.scheduled_at
  obtain ⟨n4, e4, b4⟩ := timeOfDay_contrib a.scheduled_at
  obtain ⟨n5, e5, b5⟩ := dayOfWeek_contrib a.scheduled_at
  obtain ⟨n6, e6, b6⟩ := contact_contrib a.patient_phone a.patient_whatsapp
  refine ⟨n1 + n2 + n3 + n4 + n5 + n6, ?_, by omega⟩
  unfold weightedSum
  rw [e1, e2, e3, e4, e5, e6]
  push_cast
  ring

theorem roundHalfEven_intCast (n : ℤ) : roundHalfEven (n : ℚ) = n := by
  unfold roundHalfEven
  rw [Int.floor_intCast]
  norm_num

theorem round4_thousandth (n : ℕ) :
    round4 ((n : ℚ) / 1000) = (n : ℚ) / 1000 := by
  unfold round4
  have h : ((n : ℚ) / 1000) * 10000 = ((10 * n : ℤ) : ℚ) := by
    push_cast
    ring
  rw [h, roundHalfEven_intCast]
  push_cast
  ring

theorem clamp_of_mem {x : ℚ} (h0 : 0 ≤ x) (h1 : x ≤ 1) : clamp x = x := by
  unfold clamp
  rw [min_eq_right h1, max_eq_right h0]

/-- On every reachable input the rounding and clamping are the identity: the
reported score is exactly the weighted sum. -/
theorem score_eq_weightedSum (now : ℚ) (a : ApptMap) :
    (RiskScorer.score now a).score = weightedSum now a := by
  obtain ⟨n, hn, hb⟩ := weightedSum_bound now a
  show clamp (round4 (weightedSum now a)) = weightedSum now a
  rw [hn, round4_thousandth]
  refine clamp_of_mem (by positivity) ?_
  rw [div_le_one (by norm_num)]
  exact_mod_cast le_trans (Nat.cast_le.mpr hb) (by norm_num)

theorem noShowSignal_mono {p p2 : Int} (h0 : 0 ≤ p) (h : p < p2) :
    noShowSignal p ≤ noShowSignal p2 := by
  unfold noShowSignal
  split_ifs <;> first | omega | norm_num

/-- C7: the reported score is the clamped 4-decimal rounding of the weighted
factor sum, lies in `[0, 1]`, and the level is exactly the threshold function
of the reported score (`< 0.3` low, `< 0.6` medium, else high). -/
theorem claim_C7_score_range_level (now : ℚ) (a : ApptMap) :
    (RiskScorer.score now a).score = clamp (round4 (weightedSum now a)) ∧
    0 ≤ (RiskScorer.score now a).score ∧ (RiskScorer.score now a).score ≤ 1 ∧
    (RiskScorer.score now a).level =
      (if (RiskScorer.score now a).score < 0.3 then "low"
        else if (RiskScorer.score now a).score < 0.6 then "medium"
        else "high") := by
  obtain ⟨n, hn, hb⟩ := weightedSum_bound now a
  refine ⟨rfl, ?_, ?_, rfl⟩
  · rw [score_eq_weightedSum, hn]
    positivity
  · rw [score_eq_weightedSum, hn, div_le_one (by norm_num)]
    exact_mod_cast le_trans (Nat.cast_le.mpr hb) (by norm_num)

/-- C6: increasing `previous_no_shows` alone (both values nonnegative) never
decreases the reported score. -/
theorem claim_C6_no_shows_monotone (now : ℚ) (a : ApptMap) (p p2 : Int)
    (h0 : 0 ≤ p) (hlt : p < p2) :
    (RiskScorer.score now { a with previous_no_shows := p }).score ≤
      (RiskScorer.score now { a with previous_no_shows := p2 }).score := by
  obtain ⟨aid, pid, cid, pns, fv, sch, ph, wa⟩ := a
  rw [score_eq_weightedSum, score_eq_weightedSum]
  unfold weightedSum
  dsimp only
  have hmono := noShowSignal_mono h0 hlt
  have hw : (0 : ℚ) ≤ W_NO_SHOW_HISTORY := by norm_num [W_NO_SHOW_HISTORY]
  have := mul_le_mul_of_nonneg_left hmono hw
  linarith

/-- Concrete appointment used by witnesses. -/
def apptBase : ApptMap :=
  { appointment_id := none
    patient_id := none
    clinic_id := none
    previous_no_shows := 0
    is_first_visit := false
    scheduled_at := none
    patient_phone := ""
    patient_whatsapp := false }

theorem claim_C6_no_shows_monotone_witness :
    (RiskScorer.score 0 { apptBase with previous_no_shows := 0 }).score ≤
      (RiskScorer.score 0 { apptBase with previous_no_shows := 1 }).score :=
  claim_C6_no_shows_monotone 0 apptBase 0 1 (by norm_num) (by norm_num)

/-! ## Revenue agent (`cacp.orchestration.agents.revenue_agent`) -/

structure MessagingCfg where
  preferred_channel : Option String
  max_messages_per_patient_per_day : Option Int

structure ClinicProfile where
  clinic_id : Option String
  messaging : Option MessagingCfg

/-- Model of `clinic_profile.get("messaging", {}).get("preferred_channel",
"whatsapp")`. -/
def preferredChannel (clinic_profile : ClinicProfile) : String :=
  ((clinic_profile.messaging.getD ⟨none, none⟩).preferred_channel).getD "whatsapp"

/-- Action template produced by the revenue agent, before the orchestrator
resolves `hours_before` into an absolute time. -/
structure ProtoAction where
  action_type : String
  channel : String
  template : String
  hours_before : Nat
deriving DecidableEq

structure ActionSequence where
  actions : List ProtoAction
  expected_lift : ℚ
deriving DecidableEq

/-- Model of `RevenueAgent.generate_sequence`. -/
def RevenueAgent.generate_sequence (risk_level : String) (risk_score : ℚ)
    (appointment : ApptMap) (clinic_profile : ClinicProfile) : ActionSequence :=
  let preferred_channel := preferredChannel clinic_profile
  if risk_level = "low" then
    { actions := [⟨"send_reminder", preferred_channel, "confirm_reminder_v2", 24⟩]
      expected_lift := 0.05 }
  else if risk_level = "medium" then
    { actions := [⟨"send_reminder", preferred_channel, "confirm_reminder_v2", 48⟩,
        ⟨"send_confirmation", preferred_channel, "urgency_short", 24⟩]
      expected_lift := 0.15 }
  else
    { actions := [⟨"send_reminder", preferred_channel, "confirm_reminder_v2", 48⟩,
        ⟨"send_confirmation", preferred_channel, "urgency_short", 24⟩,
        ⟨"reschedule", preferred_channel, "reschedule_offer", 2⟩]
      expected_lift := 0.25 }

/-- C9: every risk level other than `"low"` and `"medium"` (unknown or
malformed ones included) produces the high-risk sequence: reminder at 48h,
confirmation at 24h, reschedule at 2h, in that order, lift `0.25`, all on
the clinic profile's preferred channel, which defaults to `"whatsapp"`. -/
theorem claim_C9_unknown_level_high (risk_level : String) (risk_score : ℚ)
    (a : ApptMap) (profile : ClinicProfile)
    (h1 : risk_level ≠ "low") (h2 : risk_level ≠ "medium") :
    (RevenueAgent.generate_sequence risk_level risk_score a profile =
      { actions := [⟨"send_reminder", preferredChannel profile,
          "confirm_reminder_v2", 48⟩,
          ⟨"send_confirmation", preferredChannel profile, "urgency_short", 24⟩,
          ⟨"reschedule", preferredChannel profile, "reschedule_offer", 2⟩]
        expected_lift := 0.25 }) ∧
    (∀ m, profile.messaging = some m → m.preferred_channel = none →
      preferredChannel profile = "whatsapp") ∧
    (profile.messaging = none → preferredChannel profile = "whatsapp") := by
  refine ⟨by simp [RevenueAgent.generate_sequence, h1, h2], ?_, ?_⟩
  · intro m hm hc
    simp [preferredChannel, hm, hc]
  · intro hm
    simp [preferredChannel, hm]

theorem claim_C9_unknown_level_high_witness :
    RevenueAgent.generate_sequence "urgent" 0.9 apptBase ⟨none, none⟩ =
      { actions := [⟨"send_reminder", "whatsapp", "confirm_reminder_v2", 48⟩,
          ⟨"send_confirmation", "whatsapp", "urgency_short", 24⟩,
          ⟨"reschedule", "whatsapp", "reschedule_offer", 2⟩]
        expected_lift := 0.25 } :=
  (claim_C9_unknown_level_high "urgent" 0.9 apptBase ⟨none, none⟩
    (by decide) (by decide)).1

/-! ## In-memory event store (`cacp.storage.event_store`) -/

structure StoredEvent where
  event_id : String
  aggregate_id : String
  event_type : String
  payload : Json
  actor : String
  created_at : String
  idempotency_key : Option String

structure EventStoreState where
  events : List StoredEvent
  seen_keys : List String

/-- First stored event carrying the given idempotency key (the replay lookup
inside `append`); returns its `event_id`, or `""` when none is found. -/
def findByIdemKey : List StoredEvent → String → String
  | [], _ => ""
  | e :: t, k =>
    if e.idempotency_key = some k then e.event_id else findByIdemKey t k

/-- Model of `InMemoryEventStore.append`; the generated UUID and timestamp
enter as the parameters `newId` and `nowIso`. -/
def InMemoryEventStore.append (st : EventStoreState)
    (aggregate_id event_type : String) (payload : Json) (actor : String)
    (idempotency_key : Option String) (newId nowIso : String) :
    String × EventStoreState :=
  if (idempotency_key.getD "") ≠ "" ∧ (idempotency_key.getD "") ∈ st.seen_keys then
    (findByIdemKey st.events (idempotency_key.getD ""), st)
  else if (idempotency_key.getD "") ≠ "" then
    (newId,
      { events := st.events ++ [⟨newId, aggregate_id, event_type, payload,
          actor, nowIso, some (idempotency_key.getD "")⟩]
        seen_keys := st.seen_keys ++ [idempotency_key.getD ""] })
  else
    (newId,
      { events := st.events ++ [⟨newId, aggregate_id, event_type, payload,
          actor, nowIso, none⟩]
        seen_keys := st.seen_keys })

/-- Model of `InMemoryEventStore.list_events`; the second component returns
the (unchanged) store, mirroring that the method only reads `self`. -/
def InMemoryEventStore.list_events (st : EventStoreState)
    (aggregate_id event_type : Option String) (limit : Nat) :
    List StoredEvent × EventStoreState :=
  let out := st.events
  let out := match aggregate_id with
    | some s => if s = "" then out else out.filter (fun e => e.aggregate_id == s)
    | none => out
  let out := match event_type with
    | some s => if s = "" then out else out.filter (fun e => e.event_type == s)
    | none => out
  (out.reverse.take limit, st)

/-- Combined filter predicate equivalent to the two sequential truthy-guarded
filters of `list_events`. -/
def matchesFilters (aggregate_id event_type : Option String)
    (e : StoredEvent) : Bool :=
  (match aggregate_id with
    | some s => s == "" || e.aggregate_id == s
    | none => true) &&
  (match event_type with
    | some s => s == "" || e.event_type == s
    | none => true)

/-- C10: `list_events` returns exactly the matching events, newest first
(reverse append order), truncated to the first `limit` entries of that
order; it never mutates the store, and `append` only ever appends (or, on
an idempotent replay, leaves the log unchanged). -/
theorem claim_C10_list_events (st : EventStoreState)
    (af tf : Option String) (limit : Nat) :
    ((InMemoryEventStore.list_events st af tf limit).1 =
      ((st.events.filter (matchesFilters af tf)).reverse).take limit) ∧
    ((InMemoryEventStore.list_events st af tf limit).2 = st) ∧
    ((InMemoryEventStore.list_events st af tf limit).1.length ≤ limit) ∧
    (∀ agg ty pl act key newId nowIso,
      (InMemoryEventStore.append st agg ty pl act key newId nowIso).2.events
          = st.events ∨
      ∃ r, (InMemoryEventStore.append st agg ty pl act key newId
        nowIso).2.events = st.events ++ [r]) := by
  have hfil : (InMemoryEventStore.list_events st af tf limit).1 =
      ((st.events.filter (matchesFilters af tf)).reverse).take limit := by
    unfold InMemoryEventStore.list_events matchesFilters
    cases af with
    | none =>
      cases tf with
      | none => simp
      | some s =>
        by_cases hs : s = ""
        · simp [hs]
        · have hs2 : (s == "") = false := beq_eq_false_iff_ne.mpr hs
          simp [hs, hs2]
    | some s =>
      by_cases hs : s = ""
      · cases tf with
        | none => simp [hs]
        | some s2 =>
          by_cases hs3 : s2 = ""
          · simp [hs, hs3]
          · have hs4 : (s2 == "") = false := beq_eq_false_iff_ne.mpr hs3
            simp [hs, hs3, hs4]
      · have hs2 : (s == "") = false := beq_eq_false_iff_ne.mpr hs
        cases tf with
        | none => simp [hs, hs2]
        | some s2 =>
          by_cases hs3 : s2 = ""
          · simp [hs, hs2, hs3]
          · have hs4 : (s2 == "") = false := beq_eq_false_iff_ne.mpr hs3
            simp [hs, hs2, hs3, hs4, List.filter_filter, Bool.and_comm]
  refine ⟨hfil, rfl, ?_, ?_⟩
  · rw [hfil]
    exact List.length_take_le _ _
  · intro agg ty pl act key newId nowIso
    unfold InMemoryEventStore.append
    by_cases h1 : (key.getD "") ≠ "" ∧ (key.getD "") ∈ st.seen_keys
    · simp [h1]
    · by_cases h2 : (key.getD "") ≠ ""
      · have hB : (key.getD "") ∉ st.seen_keys := fun hb => h1 ⟨h2, hb⟩
        simp [h1, h2, hB]
      · simp [h1, h2]

/-! ## Worker (`cacp.workers.worker`)

Redis becomes an explicit state record; the wall clock enters as the local
hour (for quiet hours) and integer epoch seconds `now`; an adapter raising is an
`Except.error`; the event store is the `events` trace when configured.  The
`adapterCalls` counter instruments each `adapter.execute` invocation. -/

/-- Queue entry fields the worker reads.  An empty `appointment_id` or
`patient_id` models both a missing key and an empty value (the code treats
them alike via falsiness); `channel`/`pr_number` keep presence explicit
because their `get` defaults are non-empty. -/
structure ActionEnv where
  action_type : String
  appointment_id : String
  pr_number : Option String
  patient_id : String
  channel : Option String
  retry_count : Nat
deriving DecidableEq

structure AdapterRes where
  fields : List (String × String)
deriving DecidableEq

structure WorkerCfg where
  adapters : List (String × (ActionEnv → Except Unit AdapterRes))
  eventStore : Bool
  consent : Option (String → String → Bool)
  quiet_hours_start : Nat
  quiet_hours_end : Nat
  sms_rate_limit : Int
  sms_rate_window : Int
  dedup_ttl : Nat
  max_retries : Nat
  retry_backoff : List Nat

structure RedisState where
  mainQueue : List ActionEnv
  retry : List (ActionEnv × Int)
  dlq : List ActionEnv
  sent : List String
  rate : List (String × List Int)
deriving DecidableEq

inductive EvPayload where
  | withReason (action : ActionEnv) (reason : String)
  | merged (action : ActionEnv) (res : AdapterRes)
  | retryInfo (attempt : Nat) (delay_seconds : Nat) (appointment_id : String)
deriving DecidableEq

structure WEvent where
  aggregate_id : String
  event_type : String
  payload : EvPayload
deriving DecidableEq

structure WState where
  redis : RedisState
  events : List WEvent
  adapterCalls : Nat
deriving DecidableEq

/-- Model of `Worker._emit`: append to the store when one is configured. -/
def emitW (cfg : WorkerCfg) (evs : List WEvent) (agg ty : String)
    (p : EvPayload) : List WEvent :=
  if cfg.eventStore then evs ++ [⟨agg, ty, p⟩] else evs

/-- Model of `_check_consent`. -/
def check_consent (action : ActionEnv)
    (consent : Option (String → String → Bool)) : Option String :=
  match consent with
  | none => none
  | some has_consent =>
    if action.patient_id = "" then some "no_patient_id"
    else if ¬ has_consent action.patient_id (action.channel.getD "sms") then
      some "no_consent"
    else none

/-- Model of `_check_quiet_hours`; `hour` is the current local hour. -/
def check_quiet_hours (quiet_start quiet_end hour : Nat) : Option String :=
  if quiet_start ≤ quiet_end then
    if quiet_start ≤ hour ∧ hour < quiet_end then some "quiet_hours" else none
  else
    if quiet_start ≤ hour ∨ hour < quiet_end then some "quiet_hours" else none

def lookupList {α : Type} : List (String × α) → String → Option α
  | [], _ => none
  | (k, v) :: t, key => if k = key then some v else lookupList t key

def setRate (r : List (String × List Int)) (key : String) (v : List Int) :
    List (String × List Int) :=
  match r with
  | [] => [(key, v)]
  | (k, w) :: t => if k = key then (key, v) :: t else (k, w) :: setRate t key v

/-- Model of `_check_rate_limit`: the atomic pipeline prunes timestamps not
above `now - window`, counts, then adds `now`. -/
def check_rate_limit (action : ActionEnv) (r : RedisState) (limit : Int)
    (window now : Int) : Option String × RedisState :=
  if action.patient_id = "" ∨ limit ≤ 0 then (none, r)
  else
    let key := "cacp:rate:" ++ action.patient_id ++ ":" ++ action.channel.getD "sms"
    let old := (lookupList r.rate key).getD []
    let pruned := old.filter (fun t => ! decide (0 ≤ t ∧ t ≤ now - window))
    let newSet := if now ∈ pruned then pruned else pruned ++ [now]
    (if limit ≤ (pruned.length : Int) then some "rate_limited" else none,
      { r with rate := setRate r.rate key newSet })

/-- Model of `_check_dedup`: atomic `SET NX` of the dedup marker. -/
def check_dedup (action : ActionEnv) (r : RedisState) (ttl : Nat) :
    Option String × RedisState :=
  if action.appointment_id = "" then (none, r)
  else
    let key := "cacp:sent:" ++ action.appointment_id ++ ":" ++
      action.channel.getD "sms"
    if key ∈ r.sent then (some "duplicate_action", r)
    else (none, { r with sent := r.sent ++ [key] })

/-- Model of `Worker._apply_rails`: consent, then quiet hours, then rate
limit. -/
def apply_rails (cfg : WorkerCfg) (hour : Nat) (now : Int) (action : ActionEnv)
    (r : RedisState) : Option String × RedisState :=
  match check_consent action cfg.consent with
  | some reason => (some reason, r)
  | none =>
    match check_quiet_hours cfg.quiet_hours_start cfg.quiet_hours_end hour with
    | some reason => (some reason, r)
    | none => check_rate_limit action r cfg.sms_rate_limit cfg.sms_rate_window now

/-- `ZADD`: update the member's score in place or append it. -/
def zaddRetry : List (ActionEnv × Int) → ActionEnv → Int → List (ActionEnv × Int)
  | [], a, s => [(a, s)]
  | (b, s0) :: t, a, s =>
    if b = a then (a, s) :: t else (b, s0) :: zaddRetry t a s

/-- Model of `Worker._schedule_retry`. -/
def schedule_retry (cfg : WorkerCfg) (now : Int) (action : ActionEnv)
    (aggregate_id : String) (st : WState) : WState :=
  let attempt := action.retry_count + 1
  if attempt > cfg.max_retries then
    let action2 := { action with retry_count := attempt }
    { st with
      redis := { st.redis with dlq := st.redis.dlq ++ [action2] }
      events := emitW cfg st.events aggregate_id "action_dead_lettered"
        (.withReason action2 "max_retries_exceeded") }
  else
    let idx := min (attempt - 1) (cfg.retry_backoff.length - 1)
    let delay := cfg.retry_backoff.getD idx 0
    let action2 := { action with retry_count := attempt }
    { st with
      redis := { st.redis with
        retry := zaddRetry st.redis.retry action2 (now + delay) }
      events := emitW cfg st.events aggregate_id "action_retry_scheduled"
        (.retryInfo attempt delay action.appointment_id) }

inductive ExecResult where
  | blocked (reason : String)
  | ok (res : AdapterRes)
deriving DecidableEq

/-- Model of `Worker._execute`. -/
def Worker.execute (cfg : WorkerCfg) (hour : Nat) (now : Int)
    (action : ActionEnv) (st : WState) : Option ExecResult × WState :=
  let aggregate_id := if action.appointment_id ≠ "" then action.appointment_id
    else action.pr_number.getD "unknown"
  match lookupList cfg.adapters action.action_type with
  | none =>
    let evs := emitW cfg st.events aggregate_id "action_failed"
      (.withReason action "no_adapter")
    (none, { st with events := evs })
  | some adapter =>
    match apply_rails cfg hour now action st.redis with
    | (some reason, r2) =>
      let evs := emitW cfg st.events aggregate_id "action_blocked"
        (.withReason action reason)
      (some (.blocked reason), { st with redis := r2, events := evs })
    | (none, r2) =>
      match check_dedup action r2 cfg.dedup_ttl with
      | (some reason, r3) =>
        let evs := emitW cfg st.events aggregate_id "action_blocked"
          (.withReason action reason)
        (some (.blocked reason), { st with redis := r3, events := evs })
      | (none, r3) =>
        match adapter action with
        | .ok res =>
          let evs := emitW cfg st.events aggregate_id "action_executed"
            (.merged action res)
          (some (.ok res),
            { redis := r3, adapterCalls := st.adapterCalls + 1, events := evs })
        | .error _ =>
          let evs := emitW cfg st.events aggregate_id "action_failed"
            (.withReason action "adapter_error")
          (none, schedule_retry cfg now action aggregate_id
            { redis := r3, adapterCalls := st.adapterCalls + 1, events := evs })

/-- Model of `Worker.process_retries`: move every retry entry with score at
most `now` back onto the main queue. -/
def process_retries (now : Int) (st : WState) : WState × Nat :=
  let due := st.redis.retry.filter (fun e => decide (0 ≤ e.2 ∧ e.2 ≤ now))
  let rest := st.redis.retry.filter (fun e => ! decide (0 ≤ e.2 ∧ e.2 ≤ now))
  let r2 := { st.redis with
    retry := rest
    mainQueue := st.redis.mainQueue ++ due.map Prod.fst }
  ({ st with redis := r2 }, due.length)

/-- Model of `Worker.run_once`: pop one action and execute it. -/
def run_once (cfg : WorkerCfg) (hour : Nat) (now : Int) (st : WState) :
    Option ActionEnv × WState :=
  match st.redis.mainQueue with
  | [] => (none, st)
  | a :: rest =>
    (some a, (Worker.execute cfg hour now a
      { st with redis := { st.redis with mainQueue := rest } }).2)

/-- One iteration of `Worker.run_loop` at local hour `hour` and time `now`:
promote due retries, then dequeue and process. -/
def runLoopStep (cfg : WorkerCfg) (hour : Nat) (now : Int) (st : WState) :
    WState :=
  (run_once cfg hour now (process_retries now st).1).2

/-- Count of events of one type in a trace. -/
def countEvents (evs : List WEvent) (ty : String) : Nat :=
  (evs.filter (fun e => e.event_type == ty)).length

/-- C3: with a consent store configured (and an adapter registered and an
event store present), an action with an empty `patient_id`, or whose
`(patient_id, channel)` has no active consent, is blocked before the adapter:
exactly one event is emitted — `action_blocked` with reason `no_patient_id`
or `no_consent` — the adapter is never invoked, and Redis is untouched. -/
theorem claim_C3_consent_rail (cfg : WorkerCfg) (hour : Nat) (now : Int)
    (action : ActionEnv) (st : WState) (has_consent : String → String → Bool)
    (hconsent : cfg.consent = some has_consent)
    (hev : cfg.eventStore = true)
    (had : ∃ ad, lookupList cfg.adapters action.action_type = some ad)
    (hblock : action.patient_id = "" ∨
      has_consent action.patient_id (action.channel.getD "sms") = false) :
    (Worker.execute cfg hour now action st).2.events = st.events ++
      [⟨if action.appointment_id ≠ "" then action.appointment_id
          else action.pr_number.getD "unknown", "action_blocked",
        .withReason action
          (if action.patient_id = "" then "no_patient_id" else "no_consent")⟩] ∧
    (Worker.execute cfg hour now action st).2.adapterCalls = st.adapterCalls ∧
    (Worker.execute cfg hour now action st).2.redis = st.redis ∧
    (Worker.execute cfg hour now action st).1 = some (.blocked
      (if action.patient_id = "" then "no_patient_id" else "no_consent")) := by
  obtain ⟨ad, had⟩ := had
  have hrails : apply_rails cfg hour now action st.redis =
      (some (if action.patient_id = "" then "no_patient_id" else "no_consent"),
        st.redis) := by
    unfold apply_rails check_consent
    rw [hconsent]
    by_cases hp : action.patient_id = ""
    · simp [hp]
    · rcases hblock with hb | hb
      · exact absurd hb hp
      · simp [hp, hb]
  unfold Worker.execute
  rw [had, hrails]
  simp [emitW, hev]

theorem claim_C3_consent_rail_witness :
    (Worker.execute
      { adapters := [("execute_plan", fun _ => Except.ok ⟨[]⟩)]
        eventStore := true
        consent := some (fun _ _ => false)
        quiet_hours_start := 22, quiet_hours_end := 8
        sms_rate_limit := 3, sms_rate_window := 86400
        dedup_ttl := 86400, max_retries := 3, retry_backoff := [60, 300, 900] }
      14 1000
      { action_type := "execute_plan", appointment_id := "APT-1"
        pr_number := none, patient_id := "PAT-1", channel := some "sms"
        retry_count := 0 }
      ⟨⟨[], [], [], [], []⟩, [], 0⟩).2.events =
      [⟨"APT-1", "action_blocked",
        .withReason
          { action_type := "execute_plan", appointment_id := "APT-1"
            pr_number := none, patient_id := "PAT-1", channel := some "sms"
            retry_count := 0 } "no_consent"⟩] := by
  have h := claim_C3_consent_rail
    { adapters := [("execute_plan", fun _ => Except.ok ⟨[]⟩)]
      eventStore := true
      consent := some (fun _ _ => false)
      quiet_hours_start := 22, quiet_hours_end := 8
      sms_rate_limit := 3, sms_rate_window := 86400
      dedup_ttl := 86400, max_retries := 3, retry_backoff := [60, 300, 900] }
    14 1000
    { action_type := "execute_plan", appointment_id := "APT-1"
      pr_number := none, patient_id := "PAT-1", channel := some "sms"
      retry_count := 0 }
    ⟨⟨[], [], [], [], []⟩, [], 0⟩ (fun _ _ => false) rfl rfl
    ⟨fun _ => Except.ok ⟨[]⟩, rfl⟩ (Or.inr rfl)
  simpa using h.1

/-- Four worker-loop iterations starting from a queue holding `action`
alone, waking at `t1`, `t2`, `t3`, `t4`. -/
def retrySaga (cfg : WorkerCfg) (hour : Nat) (t1 t2 t3 t4 : Int)
    (action : ActionEnv) : WState :=
  runLoopStep cfg hour t4 (runLoopStep cfg hour t3 (runLoopStep cfg hour t2
    (runLoopStep cfg hour t1 ⟨⟨[action], [], [], [], []⟩, [], 0⟩)))

/-- Worker configuration of spec scenario 6: failing adapter, default
rails, `max_retries = 3`, backoff `[60, 300, 900]`. -/
def cfgC5 : WorkerCfg :=
  { adapters := [("execute_plan", fun _ => Except.error ())]
    eventStore := true
    consent := none
    quiet_hours_start := 0, quiet_hours_end := 0
    sms_rate_limit := 3, sms_rate_window := 86400
    dedup_ttl := 86400, max_retries := 3, retry_backoff := [60, 300, 900] }

/-- Typical envelope with a nonempty `appointment_id`. -/
def actC5 : ActionEnv :=
  { action_type := "execute_plan", appointment_id := "APT-1", pr_number := none
    patient_id := "", channel := none, retry_count := 0 }

/-- Four worker-loop iterations with ample wake-ups after every backoff. -/
def sagaC5 : WState := retrySaga cfgC5 12 0 60 360 1260 actC5

/-- C5 (counterexample): for an envelope with a nonempty `appointment_id`
and an adapter that raises on every invocation, the worker emits only ONE
`action_retry_scheduled` event and never dead-letters: the dedup marker set
before the first (failing) adapter call blocks the promoted retry as
`duplicate_action`, so the claimed three retries plus dead-letter do not
occur. -/
theorem claim_C5_retry_dlq_counterexample :
    countEvents sagaC5.events "action_retry_scheduled" = 1 ∧
    countEvents sagaC5.events "action_dead_lettered" = 0 ∧
    sagaC5.redis.dlq = [] ∧
    countEvents sagaC5.events "action_blocked" = 1 := by
  refine ⟨by decide, by decide, by decide, by decide⟩

/-- A failing adapter call on an action that trips no rail (no consent
store needed beyond none, quiet hours passing, empty `patient_id` and
`appointment_id`): the worker emits `action_failed` and hands the state to
`_schedule_retry`. -/
theorem execute_adapter_error (cfg : WorkerCfg) (hour : Nat) (now : Int)
    (action : ActionEnv) (st : WState)
    (ad : ActionEnv → Except Unit AdapterRes)
    (had : lookupList cfg.adapters action.action_type = some ad)
    (hfail : ad action = Except.error ())
    (hconsent : cfg.consent = none)
    (hq : check_quiet_hours cfg.quiet_hours_start cfg.quiet_hours_end hour =
      none)
    (hp : action.patient_id = "")
    (ha : action.appointment_id = "") :
    Worker.execute cfg hour now action st =
      (none, schedule_retry cfg now action (action.pr_number.getD "unknown")
        { redis := st.redis, adapterCalls := st.adapterCalls + 1
          events := emitW cfg st.events (action.pr_number.getD "unknown")
            "action_failed" (.withReason action "adapter_error") }) := by
  have hrails : apply_rails cfg hour now action st.redis = (none, st.redis) := by
    unfold apply_rails check_consent
    rw [hconsent, hq]
    simp [check_rate_limit, hp]
  have hded : check_dedup action st.redis cfg.dedup_ttl = (none, st.redis) := by
    unfold check_dedup
    simp [ha]
  unfold Worker.execute
  simp only [had, hrails, hded, hfail, ha]
  simp [ha]

/-- C5 (amended): for an envelope that trips no other rail — empty
`appointment_id` (so no dedup marker) and empty `patient_id` (so no rate
counting) — starting at `retry_count = 0` with an always-raising adapter,
`max_retries = 3` and backoff `[60, 300, 900]`: the first failure scores
the retry entry at `now + 60` with `retry_count` incremented to 1, and over
four loop iterations whose wake-ups each reach past the pending backoff the
worker emits exactly three `action_retry_scheduled` events with
`delay_seconds` 60, 300, 900 in that order, then pushes the envelope with
`retry_count = 4` onto the DLQ list with exactly one `action_dead_lettered`
event, leaving the retry set empty. -/
theorem claim_C5_retry_then_dlq (cfg : WorkerCfg) (hour : Nat)
    (t1 t2 t3 t4 : Int) (action : ActionEnv)
    (ad : ActionEnv → Except Unit AdapterRes)
    (had : lookupList cfg.adapters action.action_type = some ad)
    (hfail : ∀ a, ad a = Except.error ())
    (hev : cfg.eventStore = true)
    (hconsent : cfg.consent = none)
    (hq : check_quiet_hours cfg.quiet_hours_start cfg.quiet_hours_end hour =
      none)
    (hmax : cfg.max_retries = 3)
    (hbo : cfg.retry_backoff = [60, 300, 900])
    (hrc : action.retry_count = 0)
    (ha : action.appointment_id = "")
    (hp : action.patient_id = "")
    (h1 : 0 ≤ t1) (h2 : t1 + 60 ≤ t2) (h3 : t2 + 300 ≤ t3)
    (h4 : t3 + 900 ≤ t4) :
    (runLoopStep cfg hour t1 ⟨⟨[action], [], [], [], []⟩, [], 0⟩).redis.retry =
      [({ action with retry_count := 1 }, t1 + 60)] ∧
    (retrySaga cfg hour t1 t2 t3 t4 action).events.filter
        (fun e => e.event_type == "action_retry_scheduled") =
      [⟨action.pr_number.getD "unknown", "action_retry_scheduled",
        .retryInfo 1 60 ""⟩,
       ⟨action.pr_number.getD "unknown", "action_retry_scheduled",
        .retryInfo 2 300 ""⟩,
       ⟨action.pr_number.getD "unknown", "action_retry_scheduled",
        .retryInfo 3 900 ""⟩] ∧
    (retrySaga cfg hour t1 t2 t3 t4 action).events.filter
        (fun e => e.event_type == "action_dead_lettered") =
      [⟨action.pr_number.getD "unknown", "action_dead_lettered",
        .withReason { action with retry_count := 4 } "max_retries_exceeded"⟩] ∧
    (retrySaga cfg hour t1 t2 t3 t4 action).redis.dlq =
      [{ action with retry_count := 4 }] ∧
    (retrySaga cfg hour t1 t2 t3 t4 action).redis.retry = [] := by
  have s1 : runLoopStep cfg hour t1 ⟨⟨[action], [], [], [], []⟩, [], 0⟩ =
      ⟨⟨[], [({ action with retry_count := 1 }, t1 + 60)], [], [], []⟩,
        [⟨action.pr_number.getD "unknown", "action_failed",
          .withReason action "adapter_error"⟩,
         ⟨action.pr_number.getD "unknown", "action_retry_scheduled",
          .retryInfo 1 60 ""⟩], 1⟩ := by
    unfold runLoopStep
    have hpr : process_retries t1 ⟨⟨[action], [], [], [], []⟩, [], 0⟩ =
        (⟨⟨[action], [], [], [], []⟩, [], 0⟩, 0) := by
      simp [process_retries]
    rw [hpr]
    simp only [run_once]
    rw [execute_adapter_error cfg hour t1 action _ ad had (hfail action)
      hconsent hq hp ha]
    unfold schedule_retry
    simp [hrc, hmax, hbo, hev, emitW, zaddRetry, ha]
  have hd2a : (0 : Int) ≤ t1 + 60 := by linarith
  have hd3a : (0 : Int) ≤ t2 + 300 := by linarith
  have hd4a : (0 : Int) ≤ t3 + 900 := by linarith
  have s2 : runLoopStep cfg hour t2
      ⟨⟨[], [({ action with retry_count := 1 }, t1 + 60)], [], [], []⟩,
        [⟨action.pr_number.getD "unknown", "action_failed",
          .withReason action "adapter_error"⟩,
         ⟨action.pr_number.getD "unknown", "action_retry_scheduled",
          .retryInfo 1 60 ""⟩], 1⟩ =
      ⟨⟨[], [({ action with retry_count := 2 }, t2 + 300)], [], [], []⟩,
        [⟨action.pr_number.getD "unknown", "action_failed",
          .withReason action "adapter_error"⟩,
         ⟨action.pr_number.getD "unknown", "action_retry_scheduled",
          .retryInfo 1 60 ""⟩,
         ⟨action.pr_number.getD "unknown", "action_failed",
          .withReason { action with retry_count := 1 } "adapter_error"⟩,
         ⟨action.pr_number.getD "unknown", "action_retry_scheduled",
          .retryInfo 2 300 ""⟩], 2⟩ := by
    unfold runLoopStep
    have hpr : process_retries t2
        ⟨⟨[], [({ action with retry_count := 1 }, t1 + 60)], [], [], []⟩,
          [⟨action.pr_number.getD "unknown", "action_failed",
            .withReason action "adapter_error"⟩,
           ⟨action.pr_number.getD "unknown", "action_retry_scheduled",
            .retryInfo 1 60 ""⟩], 1⟩ =
        (⟨⟨[{ action with retry_count := 1 }], [], [], [], []⟩,
          [⟨action.pr_number.getD "unknown", "action_failed",
            .withReason action "adapter_error"⟩,
           ⟨action.pr_number.getD "unknown", "action_retry_scheduled",
            .retryInfo 1 60 ""⟩], 1⟩, 1) := by
      simp [process_retries, hd2a, h2]
    rw [hpr]
    simp only [run_once]
    rw [execute_adapter_error cfg hour t2 { action with retry_count := 1 } _
      ad had (hfail _) hconsent hq hp ha]
    unfold schedule_retry
    simp [hmax, hbo, hev, emitW, zaddRetry, ha]
  have s3 : runLoopStep cfg hour t3
      ⟨⟨[], [({ action with retry_count := 2 }, t2 + 300)], [], [], []⟩,
        [⟨action.pr_number.getD "unknown", "action_failed",
          .withReason action "adapter_error"⟩,
         ⟨action.pr_number.getD "unknown", "action_retry_scheduled",
          .retryInfo 1 60 ""⟩,
         ⟨action.pr_number.getD "unknown", "action_failed",
          .withReason { action with retry_count := 1 } "adapter_error"⟩,
         ⟨action.pr_number.getD "unknown", "action_retry_scheduled",
          .retryInfo 2 300 ""⟩], 2⟩ =
      ⟨⟨[], [({ action with retry_count := 3 }, t3 + 900)], [], [], []⟩,
        [⟨action.pr_number.getD "unknown", "action_failed",
          .withReason action "adapter_error"⟩,
         ⟨action.pr_number.getD "unknown", "action_retry_scheduled",
          .retryInfo 1 60 ""⟩,
         ⟨action.pr_number.getD "unknown", "action_failed",
          .withReason { action with retry_count := 1 } "adapter_error"⟩,
         ⟨action.pr_number.getD "unknown", "action_retry_scheduled",
          .retryInfo 2 300 ""⟩,
         ⟨action.pr_number.getD "unknown", "action_failed",
          .withReason { action with retry_count := 2 } "adapter_error"⟩,
         ⟨action.pr_number.getD "unknown", "action_retry_scheduled",
          .retryInfo 3 900 ""⟩], 3⟩ := by
    unfold runLoopStep
    have hpr : process_retries t3
        ⟨⟨[], [({ action with retry_count := 2 }, t2 + 300)], [], [], []⟩,
          [⟨action.pr_number.getD "unknown", "action_failed",
            .withReason action "adapter_error"⟩,
           ⟨action.pr_number.getD "unknown", "action_retry_scheduled",
            .retryInfo 1 60 ""⟩,
           ⟨action.pr_number.getD "unknown", "action_failed",
            .withReason { action with retry_count := 1 } "adapter_error"⟩,
           ⟨action.pr_number.getD "unknown", "action_retry_scheduled",
            .retryInfo 2 300 ""⟩], 2⟩ =
        (⟨⟨[{ action with retry_count := 2 }], [], [], [], []⟩,
          [⟨action.pr_number.getD "unknown", "action_failed",
            .withReason action "adapter_error"⟩,
           ⟨action.pr_number.getD "unknown", "action_retry_scheduled",
            .retryInfo 1 60 ""⟩,
           ⟨action.pr_number.getD "unknown", "action_failed",
            .withReason { action with retry_count := 1 } "adapter_error"⟩,
           ⟨action.pr_number.getD "unknown", "action_retry_scheduled",
            .retryInfo 2 300 ""⟩], 2⟩, 1) := by
      simp [process_retries, hd3a, h3]
    rw [hpr]
    simp only [run_once]
    rw [execute_adapter_error cfg hour t3 { action with retry_count := 2 } _
      ad had (hfail _) hconsent hq hp ha]
    unfold schedule_retry
    simp [hmax, hbo, hev, emitW, zaddRetry, ha]
  have s4 : runLoopStep cfg hour t4
      ⟨⟨[], [({ action with retry_count := 3 }, t3 + 900)], [], [], []⟩,
        [⟨action.pr_number.getD "unknown", "action_failed",
          .withReason action "adapter_error"⟩,
         ⟨action.pr_number.getD "unknown", "action_retry_scheduled",
          .retryInfo 1 60 ""⟩,
         ⟨action.pr_number.getD "unknown", "action_failed",
          .withReason { action with retry_count := 1 } "adapter_error"⟩,
         ⟨action.pr_number.getD "unknown", "action_retry_scheduled",
          .retryInfo 2 300 ""⟩,
         ⟨action.pr_number.getD "unknown", "action_failed",
          .withReason { action with retry_count := 2 } "adapter_error"⟩,
         ⟨action.pr_number.getD "unknown", "action_retry_scheduled",
          .retryInfo 3 900 ""⟩], 3⟩ =
      ⟨⟨[], [], [{ action with retry_count := 4 }], [], []⟩,
        [⟨action.pr_number.getD "unknown", "action_failed",
          .withReason action "adapter_error"⟩,
         ⟨action.pr_number.getD "unknown", "action_retry_scheduled",
          .retryInfo 1 60 ""⟩,
         ⟨action.pr_number.getD "unknown", "action_failed",
          .withReason { action with retry_count := 1 } "adapter_error"⟩,
         ⟨action.pr_number.getD "unknown", "action_retry_scheduled",
          .retryInfo 2 300 ""⟩,
         ⟨action.pr_number.getD "unknown", "action_failed",
          .withReason { action with retry_count := 2 } "adapter_error"⟩,
         ⟨action.pr_number.getD "unknown", "action_retry_scheduled",
          .retryInfo 3 900 ""⟩,
         ⟨action.pr_number.getD "unknown", "action_failed",
          .withReason { action with retry_count := 3 } "adapter_error"⟩,
         ⟨action.pr_number.getD "unknown", "action_dead_lettered",
          .withReason { action with retry_count := 4 }
            "max_retries_exceeded"⟩], 4⟩ := by
    unfold runLoopStep
    have hpr : process_retries t4
        ⟨⟨[], [({ action with retry_count := 3 }, t3 + 900)], [], [], []⟩,
          [⟨action.pr_number.getD "unknown", "action_failed",
            .withReason action "adapter_error"⟩,
           ⟨action.pr_number.getD "unknown", "action_retry_scheduled",
            .retryInfo 1 60 ""⟩,
           ⟨action.pr_number.getD "unknown", "action_failed",
            .withReason { action with retry_count := 1 } "adapter_error"⟩,
           ⟨action.pr_number.getD "unknown", "action_retry_scheduled",
            .retryInfo 2 300 ""⟩,
           ⟨action.pr_number.getD "unknown", "action_failed",
            .withReason { action with retry_count := 2 } "adapter_error"⟩,
           ⟨action.pr_number.getD "unknown", "action_retry_scheduled",
            .retryInfo 3 900 ""⟩], 3⟩ =
        (⟨⟨[{ action with retry_count := 3 }], [], [], [], []⟩,
          [⟨action.pr_number.getD "unknown", "action_failed",
            .withReason action "adapter_error"⟩,
           ⟨action.pr_number.getD "unknown", "action_retry_scheduled",
            .retryInfo 1 60 ""⟩,
           ⟨action.pr_number.getD "unknown", "action_failed",
            .withReason { action with retry_count := 1 } "adapter_error"⟩,
           ⟨action.pr_number.getD "unknown", "action_retry_scheduled",
            .retryInfo 2 300 ""⟩,
           ⟨action.pr_number.getD "unknown", "action_failed",
            .withReason { action with retry_count := 2 } "adapter_error"⟩,
           ⟨action.pr_number.getD "unknown", "action_retry_scheduled",
            .retryInfo 3 900 ""⟩], 3⟩, 1) := by
      simp [process_retries, hd4a, h4]
    rw [hpr]
    simp only [run_once]
    rw [execute_adapter_error cfg hour t4 { action with retry_count := 3 } _
      ad had (hfail _) hconsent hq hp ha]
    unfold schedule_retry
    simp [hmax, hbo, hev, emitW, ha]
  refine ⟨by rw [s1], ?_, ?_, ?_, ?_⟩ <;>
    (unfold retrySaga; rw [s1, s2, s3, s4]; try simp)

/-- Envelope that trips no rail: empty `appointment_id` (so no dedup
marker) and empty `patient_id` (so no rate counting). -/
def actC5ok : ActionEnv :=
  { action_type := "execute_plan", appointment_id := "", pr_number := none
    patient_id := "", channel := none, retry_count := 0 }

theorem claim_C5_retry_then_dlq_witness :
    (runLoopStep cfgC5 12 0 ⟨⟨[actC5ok], [], [], [], []⟩, [], 0⟩).redis.retry =
      [({ actC5ok with retry_count := 1 }, 0 + 60)] ∧
    (retrySaga cfgC5 12 0 60 360 1260 actC5ok).events.filter
        (fun e => e.event_type == "action_retry_scheduled") =
      [⟨actC5ok.pr_number.getD "unknown", "action_retry_scheduled",
        .retryInfo 1 60 ""⟩,
       ⟨actC5ok.pr_number.getD "unknown", "action_retry_scheduled",
        .retryInfo 2 300 ""⟩,
       ⟨actC5ok.pr_number.getD "unknown", "action_retry_scheduled",
        .retryInfo 3 900 ""⟩] ∧
    (retrySaga cfgC5 12 0 60 360 1260 actC5ok).events.filter
        (fun e => e.event_type == "action_dead_lettered") =
      [⟨actC5ok.pr_number.getD "unknown", "action_dead_lettered",
        .withReason { actC5ok with retry_count := 4 }
          "max_retries_exceeded"⟩] ∧
    (retrySaga cfgC5 12 0 60 360 1260 actC5ok).redis.dlq =
      [{ actC5ok with retry_count := 4 }] ∧
    (retrySaga cfgC5 12 0 60 360 1260 actC5ok).redis.retry = [] :=
  claim_C5_retry_then_dlq cfgC5 12 0 60 360 1260 actC5ok
    (fun _ => Except.error ()) rfl (fun _ => rfl) rfl rfl rfl rfl rfl
    rfl rfl rfl (by decide) (by decide) (by decide) (by decide)

/-! ## GitHub webhook (`cacp.api.routes.webhook_github`)

The request carries the raw body (fed to the HMAC) together with its JSON
parse result: `parsed = none` models a body `json.loads` rejects, and
`GhPayload` flattens the dictionary chain the handler reads (a missing key
is represented by its `get` default).  Redis `SETNX` of the delivery
marker becomes membership in `idemKeys`; the event store and the action
queue are append lists.  Responses are the pair (HTTP status code, the
`status` field of the JSON body). -/

def EXPECTED_REPO : String := "clinic-gitops-config"

/-- The fields of the webhook JSON payload the handler reads, with the
`payload.get` / `pr.get` defaults baked in for missing keys. -/
structure GhPayload where
  action : String
  merged : Bool
  number : Nat
  merge_commit_sha : String
  title : String
  prBody : String
  repo : String
deriving DecidableEq

structure GhReq where
  rawBody : String
  parsed : Option GhPayload
  event : String
  signature : String
  delivery : String
deriving DecidableEq

structure WebSettings where
  github_webhook_secret : String
  environment : String
deriving DecidableEq

structure GhEvPayload where
  pr_number : Nat
  merge_commit_sha : String
  appointment_id : String
  repo : String
deriving DecidableEq

structure GhEvent where
  aggregate_id : String
  event_type : String
  payload : GhEvPayload
deriving DecidableEq

structure QueueJob where
  action_type : String
  pr_number : Nat
  merge_commit_sha : String
  appointment_id : String
  environment : String
deriving DecidableEq

structure WebState where
  redisConfigured : Bool
  eventStoreConfigured : Bool
  idemKeys : List String
  events : List GhEvent
  queue : List QueueJob
deriving DecidableEq

/-- `str.startswith(pre)` on the underlying character lists. -/
def charsStartWith : List Char → List Char → Bool
  | _, [] => true
  | [], _ :: _ => false
  | c :: s, p :: ps => c == p && charsStartWith s ps

/-- Model of the module-level `_verify_signature` (GitHub flavour:
`sha256=`-prefixed hex digest, constant-time compare). -/
def Webhook.verify_signature (mac : String → String → String)
    (payload_body secret signature_header : String) : Bool :=
  if ¬ charsStartWith signature_header.data "sha256=".data then false
  else compareDigest ("sha256=" ++ mac secret payload_body) signature_header

/-- Model of `_extract_appointment_id`: an `appointment_id:` line of the
body wins, else the part of the title after the last `—`.  (Python
`splitlines` also splits on rarer terminators; bodies here use `\n`.) -/
def extract_appointment_id (title prBody : String) : String :=
  match (prBody.splitOn "\n").find?
      (fun line => (line.trim.toLower).startsWith "appointment_id:") with
  | some line =>
    (String.intercalate ":" ((line.trim.splitOn ":").drop 1)).trim
  | none =>
    if ((title.splitOn "—").length > 1 : Prop) then
      (((title.splitOn "—").getLast?).getD "").trim
    else ""

/-- Steps 4–7 of the handler: the event/action/repo filters, then the
`pr_merged` append and the `enqueue_action` rpush. -/
def Webhook.process_merge (settings : WebSettings) (req : GhReq)
    (payload : GhPayload) (st : WebState) : (Nat × String) × WebState :=
  if req.event ≠ "pull_request" then ((202, "ignored"), st)
  else if payload.action ≠ "closed" ∨ payload.merged = false then
    ((202, "ignored"), st)
  else if payload.repo ≠ EXPECTED_REPO then ((202, "ignored"), st)
  else
    let appointment_id := extract_appointment_id payload.title payload.prBody
    let st2 := if st.eventStoreConfigured then
        { st with events := st.events ++
          [⟨(if appointment_id ≠ "" then appointment_id
             else "pr-" ++ String.mk (renderNat payload.number)), "pr_merged",
            ⟨payload.number, payload.merge_commit_sha, appointment_id,
             payload.repo⟩⟩] }
      else st
    let st3 := if st2.redisConfigured then
        { st2 with queue := st2.queue ++
          [⟨"execute_plan", payload.number, payload.merge_commit_sha,
            appointment_id, settings.environment⟩] }
      else st2
    ((202, "accepted"), st3)

/-- Model of the `github_webhook` handler: fail-closed secret check,
signature check, JSON parse, idempotency gate, then `process_merge`. -/
def Webhook.github_webhook (mac : String → String → String)
    (settings : WebSettings) (req : GhReq) (st : WebState) :
    (Nat × String) × WebState :=
  if settings.github_webhook_secret = "" then ((503, "error"), st)
  else if ¬ Webhook.verify_signature mac req.rawBody
      settings.github_webhook_secret req.signature then ((401, "error"), st)
  else match req.parsed with
    | none => ((400, "error"), st)
    | some payload =>
      if st.redisConfigured = true ∧ req.delivery ≠ "" then
        (if ("cacp:webhook:delivery:" ++ req.delivery) ∈ st.idemKeys then
          ((200, "duplicate"), st)
        else Webhook.process_merge settings req payload
          { st with idemKeys :=
              st.idemKeys ++ ["cacp:webhook:delivery:" ++ req.delivery] })
      else Webhook.process_merge settings req payload st

def countGhEvents (evs : List GhEvent) (ty : String) : Nat :=
  (evs.filter (fun e => e.event_type == ty)).length

/-- Replaying the same request `n` times. -/
def replayWebhook (mac : String → String → String) (settings : WebSettings)
    (req : GhReq) : Nat → WebState → WebState
  | 0, st => st
  | n + 1, st =>
    replayWebhook mac settings req n
      (Webhook.github_webhook mac settings req st).2

def setC4 : WebSettings :=
  { github_webhook_secret := "whsec", environment := "staging" }

/-- A body `json.loads` rejects, correctly signed, with a delivery id. -/
def reqC4 : GhReq :=
  { rawBody := "not json", parsed := none, event := "pull_request"
    signature := "sha256=" ++ macW "whsec" "not json", delivery := "DLV-1" }

def stC4 : WebState :=
  { redisConfigured := true, eventStoreConfigured := true, idemKeys := []
    events := [], queue := [] }

/-- C4 (counterexample): a request whose body is invalid JSON but whose
signature is valid, posted twice with the same delivery id to a handler
with Redis configured, gets 400 both times — not 200 "duplicate" — because
the handler parses the body BEFORE the idempotency gate and never sets the
delivery marker. -/
theorem claim_C4_idempotency_counterexample :
    (Webhook.github_webhook macW setC4 reqC4 stC4).1 = (400, "error") ∧
    (Webhook.github_webhook macW setC4 reqC4
      (Webhook.github_webhook macW setC4 reqC4 stC4).2).1 = (400, "error") ∧
    (Webhook.github_webhook macW setC4 reqC4 stC4).2 = stC4 := by
  refine ⟨by decide, by decide, by decide⟩

/-- Steps 4–7 never touch the idempotency keys or the configuration flags,
append at most one event (always of type `pr_merged`) and at most one
queue job. -/
theorem process_merge_spec (settings : WebSettings) (req : GhReq)
    (payload : GhPayload) (st : WebState) :
    (Webhook.process_merge settings req payload st).2.idemKeys =
      st.idemKeys ∧
    (Webhook.process_merge settings req payload st).2.redisConfigured =
      st.redisConfigured ∧
    countGhEvents (Webhook.process_merge settings req payload st).2.events
        "pr_merged" ≤ countGhEvents st.events "pr_merged" + 1 ∧
    (Webhook.process_merge settings req payload st).2.queue.length ≤
      st.queue.length + 1 ∧
    (Webhook.process_merge settings req payload st).2.events.length ≤
      st.events.length + 1 := by
  unfold Webhook.process_merge
  by_cases h1 : req.event ≠ "pull_request"
  · simp [h1]
  · by_cases h2 : payload.action ≠ "closed" ∨ payload.merged = false
    · simp [h1, h2]
    · by_cases h3 : payload.repo ≠ EXPECTED_REPO
      · simp [h1, h2, h3]
      · by_cases hes : st.eventStoreConfigured = true
        · by_cases hrc : st.redisConfigured = true
          · simp [h1, h2, h3, hes, hrc, countGhEvents, List.filter_append]
          · simp [h1, h2, h3, hes, hrc, countGhEvents, List.filter_append]
        · by_cases hrc : st.redisConfigured = true
          · simp [h1, h2, h3, hes, hrc, countGhEvents, List.filter_append]
          · simp [h1, h2, h3, hes, hrc, countGhEvents, List.filter_append]

/-- A fresh delivery id passes the idempotency gate after setting the
marker. -/
theorem webhook_first (mac : String → String → String)
    (settings : WebSettings) (req : GhReq) (st : WebState)
    (payload : GhPayload)
    (hsec : settings.github_webhook_secret ≠ "")
    (hver : Webhook.verify_signature mac req.rawBody
      settings.github_webhook_secret req.signature = true)
    (hpar : req.parsed = some payload)
    (hred : st.redisConfigured = true)
    (hdel : req.delivery ≠ "")
    (hnew : "cacp:webhook:delivery:" ++ req.delivery ∉ st.idemKeys) :
    Webhook.github_webhook mac settings req st =
      Webhook.process_merge settings req payload
        { st with idemKeys :=
            st.idemKeys ++ ["cacp:webhook:delivery:" ++ req.delivery] } := by
  unfold Webhook.github_webhook
  rw [hpar]
  simp [hsec, hver, hred, hdel, hnew]

/-- A delivery id whose marker is already set short-circuits to 200
`duplicate` with no state change. -/
theorem webhook_duplicate (mac : String → String → String)
    (settings : WebSettings) (req : GhReq) (st : WebState)
    (payload : GhPayload)
    (hsec : settings.github_webhook_secret ≠ "")
    (hver : Webhook.verify_signature mac req.rawBody
      settings.github_webhook_secret req.signature = true)
    (hpar : req.parsed = some payload)
    (hred : st.redisConfigured = true)
    (hdel : req.delivery ≠ "")
    (hmem : "cacp:webhook:delivery:" ++ req.delivery ∈ st.idemKeys) :
    Webhook.github_webhook mac settings req st = ((200, "duplicate"), st) := by
  unfold Webhook.github_webhook
  rw [hpar]
  simp [hsec, hver, hred, hdel, hmem]

/-- Replays on a state that already holds the marker are pure no-ops. -/
theorem replay_stable (mac : String → String → String)
    (settings : WebSettings) (req : GhReq) (payload : GhPayload) (n : Nat)
    (st : WebState)
    (hsec : settings.github_webhook_secret ≠ "")
    (hver : Webhook.verify_signature mac req.rawBody
      settings.github_webhook_secret req.signature = true)
    (hpar : req.parsed = some payload)
    (hred : st.redisConfigured = true)
    (hdel : req.delivery ≠ "")
    (hmem : "cacp:webhook:delivery:" ++ req.delivery ∈ st.idemKeys) :
    replayWebhook mac settings req n st = st := by
  induction n with
  | zero => rfl
  | succ m ih =>
    unfold replayWebhook
    rw [webhook_duplicate mac settings req st payload hsec hver hpar hred
      hdel hmem]
    exact ih

/-- C4 (amended): for a request whose body PARSES as JSON, with a valid
signature, a nonempty secret, Redis configured and a fresh nonempty
delivery id: the first call emits at most one `pr_merged` event and
enqueues at most one job; the second call on the resulting state answers
200 "duplicate" and leaves the state untouched; and any number of replays
leaves at most one `pr_merged` event beyond the initial state.  (The
unamended claim fails only for bodies `json.loads` rejects, which the
handler rejects with 400 before the idempotency gate on every replay.) -/
theorem claim_C4_webhook_idempotency (mac : String → String → String)
    (settings : WebSettings) (req : GhReq) (st0 : WebState)
    (payload : GhPayload)
    (hsec : settings.github_webhook_secret ≠ "")
    (hver : Webhook.verify_signature mac req.rawBody
      settings.github_webhook_secret req.signature = true)
    (hpar : req.parsed = some payload)
    (hred : st0.redisConfigured = true)
    (hdel : req.delivery ≠ "")
    (hnew : "cacp:webhook:delivery:" ++ req.delivery ∉ st0.idemKeys) :
    countGhEvents (Webhook.github_webhook mac settings req st0).2.events
        "pr_merged" ≤ countGhEvents st0.events "pr_merged" + 1 ∧
    (Webhook.github_webhook mac settings req st0).2.queue.length ≤
      st0.queue.length + 1 ∧
    Webhook.github_webhook mac settings req
        (Webhook.github_webhook mac settings req st0).2 =
      ((200, "duplicate"), (Webhook.github_webhook mac settings req st0).2) ∧
    ∀ n, countGhEvents (replayWebhook mac settings req n st0).events
        "pr_merged" ≤ countGhEvents st0.events "pr_merged" + 1 := by
  have h1 := webhook_first mac settings req st0 payload hsec hver hpar hred
    hdel hnew
  obtain ⟨hik, hrc2, hcnt, hq, _⟩ := process_merge_spec settings req payload
    { st0 with idemKeys :=
        st0.idemKeys ++ ["cacp:webhook:delivery:" ++ req.delivery] }
  have hmem1 : "cacp:webhook:delivery:" ++ req.delivery ∈
      (Webhook.github_webhook mac settings req st0).2.idemKeys := by
    rw [h1, hik]
    simp
  have hred1 : (Webhook.github_webhook mac settings req st0).2.redisConfigured
      = true := by
    rw [h1, hrc2]
    exact hred
  refine ⟨by rw [h1]; exact hcnt, by rw [h1]; exact hq, ?_, ?_⟩
  · exact webhook_duplicate mac settings req _ payload hsec hver hpar hred1
      hdel hmem1
  · intro n
    cases n with
    | zero => simp [replayWebhook]
    | succ m =>
      show countGhEvents (replayWebhook mac settings req m
        (Webhook.github_webhook mac settings req st0).2).events "pr_merged" ≤
        countGhEvents st0.events "pr_merged" + 1
      rw [replay_stable mac settings req payload m _ hsec hver hpar hred1
        hdel hmem1]
      rw [h1]
      exact hcnt

/-- A correctly signed, parseable merged-PR request from the tracked
repo. -/
def reqC4ok : GhReq :=
  { rawBody := "{}"
    parsed := some ⟨"closed", true, 7, "abc123",
      "proposal/x — APT-100", "", "clinic-gitops-config"⟩
    event := "pull_request"
    signature := "sha256=" ++ macW "whsec" "{}", delivery := "DLV-2" }

theorem claim_C4_webhook_idempotency_witness :
    countGhEvents (Webhook.github_webhook macW setC4 reqC4ok stC4).2.events
        "pr_merged" ≤ countGhEvents stC4.events "pr_merged" + 1 ∧
    (Webhook.github_webhook macW setC4 reqC4ok stC4).2.queue.length ≤
      stC4.queue.length + 1 ∧
    Webhook.github_webhook macW setC4 reqC4ok
        (Webhook.github_webhook macW setC4 reqC4ok stC4).2 =
      ((200, "duplicate"),
        (Webhook.github_webhook macW setC4 reqC4ok stC4).2) ∧
    ∀ n, countGhEvents (replayWebhook macW setC4 reqC4ok n stC4).events
        "pr_merged" ≤ countGhEvents stC4.events "pr_merged" + 1 :=
  claim_C4_webhook_idempotency macW setC4 reqC4ok stC4
    ⟨"closed", true, 7, "abc123", "proposal/x — APT-100", "",
      "clinic-gitops-config"⟩
    (by decide) (by decide) rfl rfl (by decide) (by decide)

/-! ## Orchestrator (`cacp.orchestration.orchestrator`)

The external collaborators enter as parameters: the HMAC primitive `mac`,
the compliance agent's optional OPA client `opa` (the `ComplianceAgent`
constructor's injectable `opa_client`; `Orchestrator.__init__` wires
`ComplianceAgent()` with none), the optional `github_pr` creator, the
`uuid.uuid4()` proposal id, the wall clock `now` and the `isoformat`
renderer `iso`.  `datetime.fromisoformat` failing on
`appointment["scheduled_at"]` is `scheduled_at = none`. -/

structure OPAResult where
  decision : String
  violations : List String
deriving DecidableEq

/-- The OPA input document `build_opa_input` assembles, with the
`extra = {"channel": ...}` update the compliance agent passes applied. -/
structure OpaInput where
  action : String
  role : String
  mode : String
  patient_id : String
  clinic_id : String
  channel : String
deriving DecidableEq

def build_opa_input (action role mode patient_id clinic_id channel :
    String) : OpaInput :=
  ⟨action, role, mode, patient_id, clinic_id, channel⟩

structure ComplianceResult where
  compliant : Bool
  violations : List String
deriving DecidableEq

/-- A revenue-agent action after `_resolve_scheduled_times`: `hours_before`
popped, absolute `scheduled_at` ISO string added. -/
structure ResolvedAction where
  action_type : String
  channel : String
  template : String
  scheduled_at : String
deriving DecidableEq

/-- Model of `_resolve_scheduled_times`.  Proto actions always carry
`hours_before` and never a preset `scheduled_at`, so every action gets
`appt_dt - hours` rendered by `iso`; an unparsable appointment time means
`appt_dt = now + 1 day`. -/
def resolve_scheduled_times (iso : ℚ → String) (now : ℚ)
    (actions : List ProtoAction) (sched : Option Sched) :
    List ResolvedAction :=
  let appt_dt := match sched with
    | some s => s.epoch
    | none => now + 86400
  actions.map (fun a =>
    ⟨a.action_type, a.channel, a.template,
      iso (appt_dt - (a.hours_before : ℚ) * 3600)⟩)

/-- Model of `ComplianceAgent.validate`: messaging-count limit, then
per-action OPA evaluation (empty OPA violation list on a non-ALLOW becomes
`OPA_Deny`; an `OPAError` fails closed as `OPA_Unavailable`).  Resolved
actions carry no `patient_id` key, so its `get` default `""` is passed. -/
def ComplianceAgent.validate (opa : Option (OpaInput → Except Unit OPAResult))
    (actions : List ResolvedAction) (role mode : String)
    (clinic_profile : ClinicProfile) : ComplianceResult :=
  let mcfg := clinic_profile.messaging.getD ⟨none, none⟩
  let max_messages := mcfg.max_messages_per_patient_per_day.getD 3
  let limitViolations := if (actions.length : Int) > max_messages then
      ["Action count (" ++ String.mk (renderNat actions.length) ++
        ") exceeds daily limit (" ++ String.mk (renderInt max_messages) ++ ")"]
    else []
  let opaViolations := match opa with
    | none => []
    | some evaluate =>
      actions.flatMap (fun a =>
        match evaluate (build_opa_input a.action_type role mode ""
            (clinic_profile.clinic_id.getD "") a.channel) with
        | .ok res =>
          if res.decision ≠ "ALLOW" then
            (if res.violations = [] then ["OPA_Deny"] else res.violations)
          else []
        | .error _ => ["OPA_Unavailable"])
  let violations := limitViolations ++ opaViolations
  ⟨violations.length == 0, violations⟩

structure PrResult where
  pr_url : String
deriving DecidableEq

structure OrchSettings where
  environment : String
  hmac_secret : String
  github_token : String
deriving DecidableEq

inductive OrchPayload where
  | appt (a : ApptMap)
  | scored (score : ℚ) (level : String)
  | created (proposal_id : String) (actions : Nat)
  | signedEv (proposal_id : String) (signedFlag : Bool)
  | prOpened (proposal_id : String) (pr_url : String)

structure OrchEvent where
  aggregate_id : String
  event_type : String
  payload : OrchPayload

structure OrchestratorResult where
  proposal_id : String
  risk_level : String
  risk_score : ℚ
  actions : List ResolvedAction
  hmac_signature : String
  pr_url : Option String
  compliant : Bool
  violations : List String

/-- Model of `Orchestrator._emit`. -/
def emitO (eventStore : Bool) (evs : List OrchEvent) (agg ty : String)
    (p : OrchPayload) : List OrchEvent :=
  if eventStore then evs ++ [⟨agg, ty, p⟩] else evs

/-- Model of `cacp.gitops.manifest.build_execution_plan` (the
`datetime.now` stamp enters as `created_at`). -/
def build_execution_plan (proposal_id clinic_id patient_id
    appointment_id : String) (actions : List ResolvedAction)
    (risk_level environment created_at : String) : Payload :=
  [("plan_id", .str proposal_id), ("version", .str "1.0.0"),
   ("environment", .str environment), ("clinic_id", .str clinic_id),
   ("actions", .arr (actions.map (fun a => .obj
     [("action_type", .str a.action_type), ("patient_id", .str patient_id),
      ("appointment_id", .str appointment_id), ("channel", .str a.channel),
      ("template", .str a.template),
      ("scheduled_at", .str a.scheduled_at)]))),
   ("risk_level", .str risk_level), ("hmac_signature", .str ""),
   ("created_at", .str created_at)]

/-- The clinic profile literal hard-coded in `process_appointment`. -/
def orchClinicProfile : ClinicProfile := ⟨none, some ⟨some "whatsapp", some 3⟩⟩

/-- Model of `Orchestrator.process_appointment`. -/
def Orchestrator.process_appointment (mac : String → String → String)
    (opa : Option (OpaInput → Except Unit OPAResult))
    (github_pr : Option (Payload → String → String → Except Unit PrResult))
    (settings : OrchSettings) (eventStore : Bool) (iso : ℚ → String)
    (now : ℚ) (proposal_id : String) (appointment : ApptMap) :
    OrchestratorResult × List OrchEvent :=
  let appt_id := appointment.appointment_id.getD proposal_id
  let evs1 := emitO eventStore [] appt_id "appointment_received"
    (.appt appointment)
  let risk := RiskScorer.score now appointment
  let evs2 := emitO eventStore evs1 appt_id "risk_scored"
    (.scored risk.score risk.level)
  let sequence := RevenueAgent.generate_sequence risk.level risk.score
    appointment orchClinicProfile
  let resolved_actions := resolve_scheduled_times iso now sequence.actions
    appointment.scheduled_at
  let compliance := ComplianceAgent.validate opa resolved_actions "agent"
    "automated" orchClinicProfile
  if compliance.compliant = false then
    ({ proposal_id := proposal_id, risk_level := risk.level
       risk_score := risk.score, actions := resolved_actions
       hmac_signature := "", pr_url := none, compliant := false
       violations := compliance.violations }, evs2)
  else
    let plan := build_execution_plan proposal_id
      (appointment.clinic_id.getD "") (appointment.patient_id.getD "")
      (appointment.appointment_id.getD "") resolved_actions risk.level
      settings.environment (iso now)
    let evs3 := emitO eventStore evs2 appt_id "proposal_created"
      (.created proposal_id resolved_actions.length)
    let signature := if settings.hmac_secret = "" then ""
      else sign_payload mac plan settings.hmac_secret
    let plan2 := setKey plan "hmac_signature" (.str signature)
    let evs4 := emitO eventStore evs3 appt_id "proposal_signed"
      (.signedEv proposal_id (!(signature == "")))
    let finish := fun (pr_url : Option String) (evs : List OrchEvent) =>
      ({ proposal_id := proposal_id, risk_level := risk.level
         risk_score := risk.score, actions := resolved_actions
         hmac_signature := signature, pr_url := pr_url, compliant := true
         violations := ([] : List String) }, evs)
    match github_pr with
    | some create_plan_pr =>
      if settings.github_token ≠ "" then
        match create_plan_pr plan2 settings.environment
            ("proposal/" ++ String.mk (proposal_id.data.take 8)) with
        | .ok pr => finish (some pr.pr_url)
            (emitO eventStore evs4 appt_id "pr_opened"
              (.prOpened proposal_id pr.pr_url))
        | .error _ => finish none evs4
      else finish none evs4
    | none => finish none evs4

/-- The resolved action list the orchestrator validates. -/
def orchResolved (iso : ℚ → String) (now : ℚ) (appointment : ApptMap) :
    List ResolvedAction :=
  resolve_scheduled_times iso now
    (RevenueAgent.generate_sequence (RiskScorer.score now appointment).level
      (RiskScorer.score now appointment).score appointment
      orchClinicProfile).actions
    appointment.scheduled_at

/-- Every branch of `generate_sequence` returns at least one action. -/
theorem generate_sequence_actions_ne_nil (lvl : String) (score : ℚ)
    (a : ApptMap) (profile : ClinicProfile) :
    (RevenueAgent.generate_sequence lvl score a profile).actions ≠ [] := by
  unfold RevenueAgent.generate_sequence
  split_ifs <;> simp

theorem orchResolved_ne_nil (iso : ℚ → String) (now : ℚ)
    (appointment : ApptMap) : orchResolved iso now appointment ≠ [] := by
  unfold orchResolved resolve_scheduled_times
  intro h
  simp only [List.map_eq_nil_iff] at h
  exact generate_sequence_actions_ne_nil _ _ _ _ h

/-- With an OPA client that raises on every call, a nonempty proposal is
rejected fail-closed. -/
theorem validate_fail_closed (actions : List ResolvedAction)
    (role mode : String) (profile : ClinicProfile) (h : actions ≠ []) :
    (ComplianceAgent.validate (some (fun _ => Except.error ())) actions
      role mode profile).compliant = false := by
  unfold ComplianceAgent.validate
  cases actions with
  | nil => exact absurd rfl h
  | cons a t => simp

/-- C8: whenever the compliance validation of the resolved action sequence
is non-compliant, `process_appointment` short-circuits to the rejected
result: `compliant = false`, empty `hmac_signature`, `pr_url = none`,
exactly the compliance violations, with only the `appointment_received`
and `risk_scored` events emitted (no `proposal_created`, `proposal_signed`
or `pr_opened`), and the outcome independent of the HMAC primitive and of
the GitHub PR creator — no signing and no PR submission occur. -/
theorem claim_C8_compliance_short_circuit (mac : String → String → String)
    (opa : Option (OpaInput → Except Unit OPAResult))
    (github_pr : Option (Payload → String → String → Except Unit PrResult))
    (settings : OrchSettings) (eventStore : Bool) (iso : ℚ → String)
    (now : ℚ) (proposal_id : String) (appointment : ApptMap)
    (hnc : (ComplianceAgent.validate opa (orchResolved iso now appointment)
      "agent" "automated" orchClinicProfile).compliant = false) :
    Orchestrator.process_appointment mac opa github_pr settings eventStore
        iso now proposal_id appointment =
      ({ proposal_id := proposal_id
         risk_level := (RiskScorer.score now appointment).level
         risk_score := (RiskScorer.score now appointment).score
         actions := orchResolved iso now appointment
         hmac_signature := ""
         pr_url := none
         compliant := false
         violations := (ComplianceAgent.validate opa
           (orchResolved iso now appointment) "agent" "automated"
           orchClinicProfile).violations },
       emitO eventStore
         (emitO eventStore [] (appointment.appointment_id.getD proposal_id)
           "appointment_received" (.appt appointment))
         (appointment.appointment_id.getD proposal_id) "risk_scored"
         (.scored (RiskScorer.score now appointment).score
           (RiskScorer.score now appointment).level)) ∧
    (Orchestrator.process_appointment mac opa github_pr settings eventStore
        iso now proposal_id appointment).2.filter
      (fun e => e.event_type == "proposal_created" ||
        e.event_type == "proposal_signed" || e.event_type == "pr_opened") =
      [] ∧
    ∀ (mac2 : String → String → String)
      (gh2 : Option (Payload → String → String → Except Unit PrResult)),
      Orchestrator.process_appointment mac2 opa gh2 settings eventStore
        iso now proposal_id appointment =
      Orchestrator.process_appointment mac opa github_pr settings eventStore
        iso now proposal_id appointment := by
  have hnc2 := hnc
  unfold orchResolved at hnc2
  have key : ∀ (m : String → String → String)
      (g : Option (Payload → String → String → Except Unit PrResult)),
      Orchestrator.process_appointment m opa g settings eventStore iso now
          proposal_id appointment =
        ({ proposal_id := proposal_id
           risk_level := (RiskScorer.score now appointment).level
           risk_score := (RiskScorer.score now appointment).score
           actions := orchResolved iso now appointment
           hmac_signature := ""
           pr_url := none
           compliant := false
           violations := (ComplianceAgent.validate opa
             (orchResolved iso now appointment) "agent" "automated"
             orchClinicProfile).violations },
         emitO eventStore
           (emitO eventStore []
             (appointment.appointment_id.getD proposal_id)
             "appointment_received" (.appt appointment))
           (appointment.appointment_id.getD proposal_id) "risk_scored"
           (.scored (RiskScorer.score now appointment).score
             (RiskScorer.score now appointment).level)) := by
    intro m g
    unfold Orchestrator.process_appointment
    simp [hnc2, orchResolved]
  refine ⟨key mac github_pr, ?_, fun m2 g2 => (key m2 g2).trans
    (key mac github_pr).symm⟩
  rw [key mac github_pr]
  by_cases hev : eventStore = true <;> simp [emitO, hev]

theorem claim_C8_compliance_short_circuit_witness :
    Orchestrator.process_appointment macW (some (fun _ => Except.error ()))
        none ⟨"staging", "whsec", ""⟩ true (fun _ => "") 0 "P-1" apptBase =
      ({ proposal_id := "P-1"
         risk_level := (RiskScorer.score 0 apptBase).level
         risk_score := (RiskScorer.score 0 apptBase).score
         actions := orchResolved (fun _ => "") 0 apptBase
         hmac_signature := ""
         pr_url := none
         compliant := false
         violations := (ComplianceAgent.validate
           (some (fun _ => Except.error ()))
           (orchResolved (fun _ => "") 0 apptBase) "agent" "automated"
           orchClinicProfile).violations },
       emitO true
         (emitO true [] (apptBase.appointment_id.getD "P-1")
           "appointment_received" (.appt apptBase))
         (apptBase.appointment_id.getD "P-1") "risk_scored"
         (.scored (RiskScorer.score 0 apptBase).score
           (RiskScorer.score 0 apptBase).level)) ∧
    (Orchestrator.process_appointment macW (some (fun _ => Except.error ()))
        none ⟨"staging", "whsec", ""⟩ true (fun _ => "") 0 "P-1"
        apptBase).2.filter
      (fun e => e.event_type == "proposal_created" ||
        e.event_type == "proposal_signed" || e.event_type == "pr_opened") =
      [] ∧
    ∀ (mac2 : String → String → String)
      (gh2 : Option (Payload → String → String → Except Unit PrResult)),
      Orchestrator.process_appointment mac2
        (some (fun _ => Except.error ())) gh2 ⟨"staging", "whsec", ""⟩ true
        (fun _ => "") 0 "P-1" apptBase =
      Orchestrator.process_appointment macW
        (some (fun _ => Except.error ())) none ⟨"staging", "whsec", ""⟩ true
        (fun _ => "") 0 "P-1" apptBase :=
  claim_C8_compliance_short_circuit macW (some (fun _ => Except.error ()))
    none ⟨"staging", "whsec", ""⟩ true (fun _ => "") 0 "P-1" apptBase
    (validate_fail_closed (orchResolved (fun _ => "") 0 apptBase) "agent"
      "automated" orchClinicProfile (orchResolved_ne_nil _ _ _))

end Cacp
